import Mathlib

/-!
Verification of the Licenses-WebUI monitoring core (src/app.py) against its
natural-language specification.

The Python source is shallowly embedded: each relevant Python function is
translated into a Lean definition of the same name (modulo naming rules).
Python dicts (which preserve insertion order) are modelled as association
lists; Python re patterns are modelled by a small backtracking regex
engine whose pattern terms mirror the regex literals in the source;
floating point timestamps are modelled as exact integer seconds of a
fixed-offset local clock, and float hour arithmetic as exact rationals.
-/

namespace LWUI

/-! ## Basic string helpers (Python semantics) -/

/-- Python whitespace characters as used by str.strip / regex \s (ASCII part). -/
def isWs (c : Char) : Bool :=
  c = ' ' || c = '\t' || c = '\n' || c = '\r' || c = '\x0b' || c = '\x0c'

def isDigitCh (c : Char) : Bool := '0' ≤ c && c ≤ '9'

def isAlphaCh (c : Char) : Bool :=
  ('a' ≤ c && c ≤ 'z') || ('A' ≤ c && c ≤ 'Z')

/-- Python str.strip() (whitespace at both ends). -/
def pyStrip (cs : List Char) : List Char :=
  (((cs.dropWhile isWs).reverse).dropWhile isWs).reverse

/-- Python str.lower() (ASCII). -/
def lowerStr (s : String) : String := ⟨s.data.map Char.toLower⟩

def listToStr (cs : List Char) : String := ⟨cs⟩

/-- Digits to number, as Python int() on a \d+ capture. -/
def charsToNat (cs : List Char) : Nat :=
  cs.foldl (fun n c => n * 10 + (c.toNat - '0'.toNat)) 0

/-- Does hay start with needle? -/
def listStartsWith : List Char → List Char → Bool
  | _, [] => true
  | [], _ :: _ => false
  | c :: t, d :: u => c = d && listStartsWith t u

/-- Does hay contain needle as a contiguous substring? (Python: needle in hay) -/
def listHasSub (needle : List Char) : List Char → Bool
  | [] => listStartsWith [] needle
  | c :: t => listStartsWith (c :: t) needle || listHasSub needle t

/-- Python: needle in hay (substring containment on strings). -/
def strContains (hay needle : String) : Bool := listHasSub needle.data hay.data

/-- Python str.splitlines helper: split on \n, \r, \r\n; collects lines. -/
def splitlinesAux : List Char → List Char → List (List Char)
  | cur, [] => [cur.reverse]
  | cur, '\r' :: '\n' :: t => cur.reverse :: splitlinesAux [] t
  | cur, '\r' :: t => cur.reverse :: splitlinesAux [] t
  | cur, '\n' :: t => cur.reverse :: splitlinesAux [] t
  | cur, c :: t => splitlinesAux (c :: cur) t

def endsWithBreak (cs : List Char) : Bool :=
  match cs.getLast? with
  | some c => c = '\n' || c = '\r'
  | none => false

/-- Python str.splitlines(): no trailing empty line for a trailing newline. -/
def pySplitlines (s : String) : List (List Char) :=
  match s.data with
  | [] => []
  | cs =>
    let parts := splitlinesAux [] cs
    if endsWithBreak cs then parts.dropLast else parts

/-! ## A small backtracking regex engine

Pattern terms mirror the Python re literals used in app.py.  Matching is
leftmost (search tries offsets in order) with Python's backtracking order:
greedy quantifiers try longer matches first, lazy quantifiers shorter
first.  Captures are strings of the consumed characters.  A fuel argument
bounds recursion; the patterns of app.py never iterate a nullable body, so
the generous fuel below is never exhausted on them. -/

inductive Re where
  | eps : Re
  | cls : (Char → Bool) → Re
  | seq : Re → Re → Re
  | alt : Re → Re → Re
  | grp : Nat → Re → Re
  | star : Bool → Re → Re

/-- Record a capture group's value (last occurrence wins, as in Python). -/
def setCap (n : Nat) (v : List Char) : List (Nat × List Char) → List (Nat × List Char)
  | [] => [(n, v)]
  | (m, w) :: t => if m = n then (n, v) :: t else (m, w) :: setCap n v t

def getCap (caps : List (Nat × List Char)) (n : Nat) : List Char :=
  match caps.find? (fun p => decide (p.1 = n)) with
  | some p => p.2
  | none => []

/-- CPS backtracking matcher.  The continuation receives the remaining
input and the captures; the first success in backtracking order wins. -/
def reMatch : Nat → Re → List Char → List (Nat × List Char) →
    (List Char → List (Nat × List Char) → Option (List (Nat × List Char))) →
    Option (List (Nat × List Char))
  | 0, _, _, _, _ => none
  | _ + 1, .eps, s, caps, k => k s caps
  | _ + 1, .cls f, s, caps, k =>
    match s with
    | [] => none
    | c :: t => if f c then k t caps else none
  | fuel + 1, .seq a b, s, caps, k =>
    reMatch fuel a s caps (fun s2 c2 => reMatch fuel b s2 c2 k)
  | fuel + 1, .alt a b, s, caps, k =>
    match reMatch fuel a s caps k with
    | some r => some r
    | none => reMatch fuel b s caps k
  | fuel + 1, .grp n a, s, caps, k =>
    reMatch fuel a s caps
      (fun s2 c2 => k s2 (setCap n (s.take (s.length - s2.length)) c2))
  | fuel + 1, .star greedy a, s, caps, k =>
    if greedy then
      match reMatch fuel a s caps
          (fun s2 c2 => reMatch fuel (.star greedy a) s2 c2 k) with
      | some r => some r
      | none => k s caps
    else
      match k s caps with
      | some r => some r
      | none => reMatch fuel a s caps
          (fun s2 c2 => reMatch fuel (.star greedy a) s2 c2 k)

def reSize : Re → Nat
  | .eps => 1
  | .cls _ => 1
  | .seq a b => reSize a + reSize b + 1
  | .alt a b => reSize a + reSize b + 1
  | .grp _ a => reSize a + 1
  | .star _ a => reSize a + 1

def reFuel (r : Re) (s : List Char) : Nat := (reSize r + 2) * (s.length + 2)

/-- Match anchored at the start of the input (Python re.match, or a
pattern beginning with the hat anchor); trailing input is allowed. -/
def reMatchAt (r : Re) (s : List Char) : Option (List (Nat × List Char)) :=
  reMatch (reFuel r s) r s [] (fun _ caps => some caps)

/-- Match the whole input (as the regex generated by strptime, which
rejects unconverted trailing data). -/
def reMatchFull (r : Re) (s : List Char) : Option (List (Nat × List Char)) :=
  reMatch (reFuel r s) r s [] (fun rest caps => if rest.isEmpty then some caps else none)

/-- Python re.search: leftmost match, trying start offsets in order. -/
def reSearch (r : Re) (s : List Char) : Option (List (Nat × List Char)) :=
  match reMatchAt r s with
  | some caps => some caps
  | none =>
    match s with
    | [] => none
    | _ :: t => reSearch r t

/-! ### Pattern constructors -/

def reLit (c : Char) : Re := .cls (fun x => x = c)

/-- A literal under re.IGNORECASE. -/
def reLitCI (c : Char) : Re := .cls (fun x => x.toLower = c.toLower)

def reStr (ci : Bool) (s : String) : Re :=
  s.data.foldr (fun c r => .seq (if ci then reLitCI c else reLit c) r) .eps

def reCat (l : List Re) : Re := l.foldr .seq .eps

def rePlus (greedy : Bool) (a : Re) : Re := .seq a (.star greedy a)

def reOpt (greedy : Bool) (a : Re) : Re :=
  if greedy then .alt a .eps else .alt .eps a

/-- Regex dot: any character except newline. -/
def reAny : Re := .cls (fun c => c ≠ '\n')

def reWs : Re := .cls isWs

def reDigit : Re := .cls isDigitCh

/-! ## The four parser patterns of parse_lmstat (src/app.py)

re_feature   = Users of\s+(.+?):\s*\(Total of\s+(\d+).*?Total of\s+(\d+)\s+licenses? in use   (IGNORECASE, search)
re_expiry    = expiry:\s*([0-9A-Za-z\-\s]+)                                                    (IGNORECASE, search)
re_named     = hat "([^"]+)"                                                                   (anchored)
re_user      = hat \s*([^\s]+)\s+([^\s]+).*?\(v?([0-9A-Za-z\.\-]+)\).*?start\s+(.+)            (IGNORECASE, anchored)
-/

def reFeature : Re := reCat [
  reStr true "Users of",
  rePlus true reWs,
  .grp 1 (rePlus false reAny),
  reLit ':',
  .star true reWs,
  reLit '(',
  reStr true "Total of",
  rePlus true reWs,
  .grp 2 (rePlus true reDigit),
  .star false reAny,
  reStr true "Total of",
  rePlus true reWs,
  .grp 3 (rePlus true reDigit),
  rePlus true reWs,
  reStr true "license", reOpt true (reLitCI 's'),
  reStr true " in use"]

def reExpiry : Re := reCat [
  reStr true "expiry:",
  .star true reWs,
  .grp 1 (rePlus true (.cls (fun c => isDigitCh c || isAlphaCh c || c = '-' || isWs c)))]

def reNamedBlock : Re := reCat [
  reLit '"',
  .grp 1 (rePlus true (.cls (fun c => c ≠ '"'))),
  reLit '"']

def reUser : Re := reCat [
  .star true reWs,
  .grp 1 (rePlus true (.cls (fun c => !isWs c))),
  rePlus true reWs,
  .grp 2 (rePlus true (.cls (fun c => !isWs c))),
  .star false reAny,
  reLit '(',
  reOpt true (reLitCI 'v'),
  .grp 3 (rePlus true (.cls (fun c => isDigitCh c || isAlphaCh c || c = '.' || c = '-'))),
  reLit ')',
  .star false reAny,
  reStr true "start",
  rePlus true reWs,
  .grp 4 (rePlus true reAny)]

/-! ## Data model (parse_lmstat output records) -/

structure UserSession where
  user : String
  computer : String
  version : String
  start : String
deriving Repr, DecidableEq

structure FeatRec where
  total : Option Nat
  used : Option Nat
  expiry : Option String
  users : List UserSession
deriving Repr, DecidableEq

/-- Ordered association-list model of Python dicts. -/
def alistGet {κ ν : Type} [DecidableEq κ] (l : List (κ × ν)) (k : κ) : Option ν :=
  (l.find? (fun p => decide (p.1 = k))).map (·.2)

def alistHas {κ ν : Type} [DecidableEq κ] (l : List (κ × ν)) (k : κ) : Bool :=
  l.any (fun p => decide (p.1 = k))

/-- Python d[k] = v : update in place, else append (insertion order kept). -/
def alistSet {κ ν : Type} [DecidableEq κ] (l : List (κ × ν)) (k : κ) (v : ν) :
    List (κ × ν) :=
  if alistHas l k then l.map (fun p => if p.1 = k then (k, v) else p)
  else l ++ [(k, v)]

/-- Python d.setdefault(k, v): insert only if absent. -/
def alistSetdefault {κ ν : Type} [DecidableEq κ] (l : List (κ × ν)) (k : κ) (v : ν) :
    List (κ × ν) :=
  if alistHas l k then l else l ++ [(k, v)]

/-- Update the value stored at an existing key. -/
def alistModify {κ ν : Type} [DecidableEq κ] (l : List (κ × ν)) (k : κ) (f : ν → ν) :
    List (κ × ν) :=
  l.map (fun p => if p.1 = k then (p.1, f p.2) else p)

abbrev Features := List (String × FeatRec)

/-! ## parse_lmstat -/

/-- The feature-header branch: re_feature matched on the line yields
(name.strip(), int(total), int(used)). -/
def parseFeatureHeader (line : List Char) : Option (String × Nat × Nat) :=
  match reSearch reFeature line with
  | some caps =>
    some (listToStr (pyStrip (getCap caps 1)), charsToNat (getCap caps 2),
      charsToNat (getCap caps 3))
  | none => none

/-- The quoted-bare-token branch: re_named_block matched at line start. -/
def parseNamedLine (line : List Char) : Option String :=
  match reMatchAt reNamedBlock line with
  | some caps => some (listToStr (pyStrip (getCap caps 1)))
  | none => none

/-- The expiry branch: re_expiry matched anywhere on the line. -/
def parseExpiryLine (line : List Char) : Option String :=
  match reSearch reExpiry line with
  | some caps => some (listToStr (pyStrip (getCap caps 1)))
  | none => none

/-- The user-checkout branch: re_user matched at line start. -/
def parseUserLine (line : List Char) : Option UserSession :=
  match reMatchAt reUser line with
  | some caps =>
    some ⟨listToStr (pyStrip (getCap caps 1)), listToStr (pyStrip (getCap caps 2)),
      listToStr (pyStrip (getCap caps 3)), listToStr (pyStrip (getCap caps 4))⟩
  | none => none

/-- The tail of the line loop: the user-checkout branch, applied only
when a feature is open; otherwise the line is skipped. -/
def parseLineUser (features : Features) (current : Option String) (line : List Char) :
    Features × Option String :=
  match parseUserLine line, current with
  | some u, some cur =>
    (alistModify features cur (fun r => { r with users := r.users ++ [u] }), current)
  | _, _ => (features, current)

/-- One iteration of the line loop of parse_lmstat.  The state is the
feature dict plus the current-feature cursor.  Branch order and the
current-feature guards follow the source exactly: expiry and user lines
are applied only when a feature is open, and otherwise fall through. -/
def parseLine (features : Features) (current : Option String) (line : List Char) :
    Features × Option String :=
  match parseFeatureHeader line with
  | some (name, total, used) =>
    (alistSetdefault features name ⟨some total, some used, none, []⟩, some name)
  | none =>
  match parseNamedLine line with
  | some name =>
    (alistSetdefault features name ⟨none, none, none, []⟩, some name)
  | none =>
  match parseExpiryLine line, current with
  | some e, some cur =>
    (alistModify features cur (fun r => { r with expiry := some e }), current)
  | _, _ => parseLineUser features current line

/-- parse_lmstat (src/app.py, lines 1351-1405): line-by-line scan with a
current-feature cursor, returning the ordered feature dict. -/
def parse_lmstat (raw_text : String) : Features :=
  ((pySplitlines raw_text).foldl (fun acc line => parseLine acc.1 acc.2 line)
    ([], none)).1

/-! ## Naive local date-times (datetime.datetime model)

Python datetime objects are naive local times here; .timestamp() is
modelled as seconds on a fixed-offset local clock (a linear, strictly
monotone encoding), so datetime comparison and subtraction agree with
comparison and subtraction of the encoded seconds. -/

structure DateTime where
  year : Nat
  month : Nat
  day : Nat
  hour : Nat
  minute : Nat
  second : Nat
deriving Repr, DecidableEq

def isLeap (y : Nat) : Bool := (y % 4 = 0 && y % 100 ≠ 0) || y % 400 = 0

def daysInMonth (y m : Nat) : Nat :=
  if m = 2 then (if isLeap y then 29 else 28)
  else if m = 4 ∨ m = 6 ∨ m = 9 ∨ m = 11 then 30
  else 31

/-- The validity checks of the datetime constructor (raises ValueError
outside these ranges). -/
def dtValid (d : DateTime) : Bool :=
  1 ≤ d.year && d.year ≤ 9999 && 1 ≤ d.month && d.month ≤ 12 &&
  1 ≤ d.day && d.day ≤ daysInMonth d.year d.month &&
  d.hour ≤ 23 && d.minute ≤ 59 && d.second ≤ 59

/-- Days before January 1st of the given year (proleptic Gregorian). -/
def daysBeforeYear (y : Nat) : Nat :=
  let n := y - 1
  n * 365 + n / 4 - n / 100 + n / 400

def daysBeforeMonth (y m : Nat) : Nat :=
  (List.range (m - 1)).foldl (fun a i => a + daysInMonth y (i + 1)) 0

def toDays (d : DateTime) : Nat :=
  daysBeforeYear d.year + daysBeforeMonth d.year d.month + (d.day - 1)

/-- Seconds encoding of a naive local datetime (the model of
datetime.timestamp() on a fixed-offset clock). -/
def toSeconds (d : DateTime) : Int :=
  (toDays d : Int) * 86400 + d.hour * 3600 + d.minute * 60 + d.second

/-! ## strptime patterns

Python strptime compiles each format to a regex matched case-insensitively
against the whole string; a whitespace run in the format matches \s+.
Numeric directives are the alternations of the standard library
(TimeRE): value-constrained 1-2 digit fields tried longest first. -/

def reStpM : Re :=
  .alt (.seq (reLit '1') (.cls (fun c => '0' ≤ c && c ≤ '2')))
    (.alt (.seq (reLit '0') (.cls (fun c => '1' ≤ c && c ≤ '9')))
      (.cls (fun c => '1' ≤ c && c ≤ '9')))

def reStpD : Re :=
  .alt (.seq (reLit '3') (.cls (fun c => c = '0' || c = '1')))
    (.alt (.seq (.cls (fun c => c = '1' || c = '2')) reDigit)
      (.alt (.seq (reLit '0') (.cls (fun c => '1' ≤ c && c ≤ '9')))
        (.cls (fun c => '1' ≤ c && c ≤ '9'))))

def reStpY : Re := reCat [reDigit, reDigit, reDigit, reDigit]

def reStpH : Re :=
  .alt (.seq (reLit '2') (.cls (fun c => '0' ≤ c && c ≤ '3')))
    (.alt (.seq (.cls (fun c => c = '0' || c = '1')) reDigit) reDigit)

def reStpMin : Re :=
  .alt (.seq (.cls (fun c => '0' ≤ c && c ≤ '5')) reDigit) reDigit

def reStpS : Re :=
  .alt (.seq (reLit '6') (.cls (fun c => c = '0' || c = '1')))
    (.alt (.seq (.cls (fun c => '0' ≤ c && c ≤ '5')) reDigit) reDigit)

def monthAbbrevs : List (String × Nat) :=
  [("jan", 1), ("feb", 2), ("mar", 3), ("apr", 4), ("may", 5), ("jun", 6),
   ("jul", 7), ("aug", 8), ("sep", 9), ("oct", 10), ("nov", 11), ("dec", 12)]

def reStpB : Re :=
  (monthAbbrevs.map (fun p => reStr true p.1)).foldr .alt (.cls (fun _ => false))

def monthNum (cs : List Char) : Option Nat :=
  alistGet monthAbbrevs (listToStr (cs.map Char.toLower))

/-- Format %m/%d/%Y %H:%M -/
def stpFmtA : Re := reCat [
  .grp 1 reStpM, reLit '/', .grp 2 reStpD, reLit '/', .grp 3 reStpY,
  rePlus true reWs, .grp 4 reStpH, reLit ':', .grp 5 reStpMin]

/-- Format %b %d %Y %H:%M -/
def stpFmtB : Re := reCat [
  .grp 1 reStpB, rePlus true reWs, .grp 2 reStpD, rePlus true reWs,
  .grp 3 reStpY, rePlus true reWs, .grp 4 reStpH, reLit ':', .grp 5 reStpMin]

/-- Format %Y-%m-%d %H:%M:%S -/
def stpFmtC : Re := reCat [
  .grp 3 reStpY, reLit '-', .grp 1 reStpM, reLit '-', .grp 2 reStpD,
  rePlus true reWs, .grp 4 reStpH, reLit ':', .grp 5 reStpMin,
  reLit ':', .grp 6 reStpS]

/-- Format %m/%d/%Y %H:%M:%S -/
def stpFmtD : Re := reCat [
  .grp 1 reStpM, reLit '/', .grp 2 reStpD, reLit '/', .grp 3 reStpY,
  rePlus true reWs, .grp 4 reStpH, reLit ':', .grp 5 reStpMin,
  reLit ':', .grp 6 reStpS]

/-- One datetime.strptime attempt: full-string regex match, numeric or
month-name conversion, then constructor validation; any failure makes
this format fail (ValueError caught by the caller's except). -/
def tryStrptime (r : Re) (monthByName : Bool) (s : List Char) : Option DateTime :=
  match reMatchFull r s with
  | none => none
  | some caps =>
    let mo? : Option Nat :=
      if monthByName then monthNum (getCap caps 1)
      else some (charsToNat (getCap caps 1))
    match mo? with
    | none => none
    | some mo =>
      let d : DateTime :=
        ⟨charsToNat (getCap caps 3), mo, charsToNat (getCap caps 2),
         charsToNat (getCap caps 4), charsToNat (getCap caps 5),
         charsToNat (getCap caps 6)⟩
      if dtValid d then some d else none

/-! ## The two year-less regex patterns of _parse_start_timestamp -/

/-- One digit followed by an optional digit: the greedy range 1-2 of \d. -/
def reD12 : Re := .seq reDigit (reOpt true reDigit)

/-- hat [A-Za-z]3 (\d 1-2)/(\d 1-2) (\d 1-2):(\d\d) (re.match). -/
def reTsWd : Re := reCat [
  .cls isAlphaCh, .cls isAlphaCh, .cls isAlphaCh, reLit ' ',
  .grp 1 reD12, reLit '/', .grp 2 reD12, reLit ' ',
  .grp 3 reD12, reLit ':', .grp 4 (reCat [reDigit, reDigit])]

/-- hat (\d 1-2)/(\d 1-2) (\d 1-2):(\d\d) (re.match). -/
def reTsMd : Re := reCat [
  .grp 1 reD12, reLit '/', .grp 2 reD12, reLit ' ',
  .grp 3 reD12, reLit ':', .grp 4 (reCat [reDigit, reDigit])]

/-- The year-less construction step: build the datetime in the current
year; if it lies more than 2 days in the future relative to now, rebuild
with the prior year.  An invalid construction raises and is caught,
making this pattern's attempt fail (fall through). -/
def yearlessTs (now : DateTime) (mo d h mi : Nat) : Option Int :=
  let dt : DateTime := ⟨now.year, mo, d, h, mi, 0⟩
  if dtValid dt then
    if toSeconds dt > toSeconds now + 2 * 86400 then
      let dt2 : DateTime := ⟨now.year - 1, mo, d, h, mi, 0⟩
      if dtValid dt2 then some (toSeconds dt2) else none
    else some (toSeconds dt)
  else none

def yearlessOfCaps (now : DateTime) (caps : List (Nat × List Char)) : Option Int :=
  yearlessTs now (charsToNat (getCap caps 1)) (charsToNat (getCap caps 2))
    (charsToNat (getCap caps 3)) (charsToNat (getCap caps 4))

/-- Embedding of _parse_start_timestamp (src/app.py, lines 1570-1615): best-effort
parse of an lmstat start field to epoch seconds; None when nothing
matches.  Fully year-specified strptime formats are tried first, then the
two year-less regex patterns with the current-year heuristic. -/
def _parse_start_timestamp (now : DateTime) (start_str : String) : Option Int :=
  if start_str = "" then none
  else
    let s := pyStrip start_str.data
    match tryStrptime stpFmtA false s with
    | some d => some (toSeconds d)
    | none =>
    match tryStrptime stpFmtB true s with
    | some d => some (toSeconds d)
    | none =>
    match tryStrptime stpFmtC false s with
    | some d => some (toSeconds d)
    | none =>
    match tryStrptime stpFmtD false s with
    | some d => some (toSeconds d)
    | none =>
    match reMatchAt reTsWd s with
    | some caps =>
      (match yearlessOfCaps now caps with
       | some v => some v
       | none =>
         match reMatchAt reTsMd s with
         | some caps2 => yearlessOfCaps now caps2
         | none => none)
    | none =>
      match reMatchAt reTsMd s with
      | some caps2 => yearlessOfCaps now caps2
      | none => none

/-! ## Configuration (the module-level settings read by the detectors) -/

structure Config where
  teamsEnabled : Bool
  notifyDaemon : Bool
  notifyDuplicate : Bool
  notifyExtratime : Bool
  notifySoldout : Bool
  hideMaint : Bool
  hideList : List String
  soldoutExclusion : List String
  extratimeExclusion : List String
  extratimeThreshold : Nat
deriving DecidableEq

/-! ## _lmstat_output_indicates_ok (src/app.py, lines 1440-1454) -/

def failurePatterns : List String :=
  ["cannot connect to license server system", "error getting status",
   "no such host is known", "connection refused", "(-15"]

def _lmstat_output_indicates_ok (text : String) : Bool :=
  let t := text.data.map Char.toLower
  !(failurePatterns.any (fun p => listHasSub p.data t))

/-! ## check_daemon_state (src/app.py, lines 1456-1568) -/

/-- Python truthiness of an optional bool (None and False are falsy). -/
def pyTruthy (x : Option Bool) : Bool := x.getD false

/-- The up/down decision of check_daemon_state, exactly as the nested
conditionals of the source: both branches check the same three explicit
down rules first; the hint branch then answers up, the no-hint branch
answers bool(service_running or port_ok). -/
def daemonCurrent (hint : Bool) (sr po : Option Bool) : Bool :=
  if hint then
    if sr = some false ∧ po = some false then false
    else if sr = some false ∧ po = none then false
    else if po = some false ∧ sr = none then false
    else true
  else
    if sr = some false ∧ po = some false then false
    else if sr = some false ∧ po = none then false
    else if po = some false ∧ sr = none then false
    else (pyTruthy sr || pyTruthy po)

inductive DaemonNotif where
  | down : DaemonNotif
  | up : DaemonNotif
deriving Repr, DecidableEq

/-- check_daemon_state: gate on the Teams settings, compute the current
state, store it, and notify on the first observation only when down, and
afterwards exactly on a flip.  The stored state is written before any
notification is sent, so delivery failure cannot change it. -/
def check_daemon_state (cfg : Config) (current_up_hint : Bool) (sr po : Option Bool)
    (st : Option Bool) : Option Bool × Option DaemonNotif :=
  if !(cfg.teamsEnabled && cfg.notifyDaemon) then (st, none)
  else
    let current := daemonCurrent current_up_hint sr po
    match st with
    | none => (some current, if current = false then some .down else none)
    | some prev =>
      (some current,
       if prev ≠ current then some (if current then .up else .down) else none)

/-- The spec's ordered decision table (section 4.4), written from the
spec's words for comparison with the code's daemonCurrent. -/
def specDaemonTable (lmstatOk : Bool) (serviceRunning portOpen : Option Bool) : Bool :=
  if serviceRunning = some false ∧ portOpen = some false then false
  else if serviceRunning = some false ∧ portOpen = none then false
  else if portOpen = some false ∧ serviceRunning = none then false
  else if lmstatOk then true
  else (serviceRunning.getD false || portOpen.getD false)

/-! ## check_duplicates (src/app.py, lines 1733-1787) -/

structure DupNotif where
  feature : String
  user : String
  computer : String
  count : Nat
deriving Repr, DecidableEq

abbrev DupKey := String × String × String

/-- One session of the user_computer_counts accumulation. -/
def pairCountStep (acc : List ((String × String) × Nat)) (s : UserSession) :
    List ((String × String) × Nat) :=
  match alistGet acc (s.user, s.computer) with
  | some n => alistSet acc (s.user, s.computer) (n + 1)
  | none => acc ++ [((s.user, s.computer), 1)]

/-- The user_computer_counts dict: occurrences of each (user, computer)
pair in a feature's session list, keys in first-appearance order. -/
def pairCounts (users : List UserSession) : List ((String × String) × Nat) :=
  users.foldl pairCountStep []

/-- The dedup key of a duplicate notification. -/
def dupKeyOf (n : DupNotif) : DupKey := (n.feature, n.user, n.computer)

/-- The body of the inner duplicate loop: one (user, computer) pair with
its count, for the feature named feat.  A duplicate pair (count above 1)
not already remembered is notified and remembered at detection time,
before any send, so delivery outcome never affects the state. -/
def dupPairStep (feat : String) (acc2 : List DupKey × List DupNotif)
    (q : (String × String) × Nat) : List DupKey × List DupNotif :=
  if q.2 > 1 then
    if decide ((feat, q.1.1, q.1.2) ∈ acc2.1) then acc2
    else (acc2.1 ++ [(feat, q.1.1, q.1.2)], acc2.2 ++ [⟨feat, q.1.1, q.1.2, q.2⟩])
  else acc2

/-- The body of the outer duplicate loop: one feature entry. -/
def dupFeatureStep (cfg : Config) (acc : List DupKey × List DupNotif)
    (p : String × FeatRec) : List DupKey × List DupNotif :=
  if cfg.hideMaint && strContains (lowerStr p.1) "maint" then acc
  else if p.2.users.length < 2 then acc
  else (pairCounts p.2.users).foldl (dupPairStep p.1) acc

def check_duplicates (cfg : Config) (parsed : Features) (st : List DupKey) :
    List DupKey × List DupNotif :=
  if !(cfg.teamsEnabled && cfg.notifyDuplicate) then (st, [])
  else parsed.foldl (dupFeatureStep cfg) (st, [])

def markDelivered (oracle : Nat → Bool) (l : List DupNotif) : List (DupNotif × Bool) :=
  l.enum.map (fun p => (p.2, oracle p.1))

/-- check_duplicates followed by its send loop: the remembered-key set and
the notification list are fully computed by the detection loop before any
send happens, so delivery outcomes only annotate the sent messages. -/
def check_duplicates_sent (cfg : Config) (parsed : Features) (st : List DupKey)
    (oracle : Nat → Bool) : (List DupKey × List DupNotif) × List (DupNotif × Bool) :=
  let r := check_duplicates cfg parsed st
  (r, markDelivered oracle r.2)

/-- A whole run of the duplicate detector over successive parsed
snapshots, collecting the concatenated notification trace. -/
def runDuplicates (cfg : Config) (snaps : List Features) (st : List DupKey) :
    List DupKey × List DupNotif :=
  snaps.foldl (fun acc s =>
    let r := check_duplicates cfg s acc.1
    (r.1, acc.2 ++ r.2)) (st, [])

/-! ## check_extratime (src/app.py, lines 1617-1672) -/

structure ExtraNotif where
  user : String
  computer : String
  feats : List (String × Int)
  delivered : Bool
deriving Repr, DecidableEq

structure ExtraState where
  notified : List (String × String)
  sendIdx : Nat
deriving Repr, DecidableEq

/-- The dedup key of an extended-usage notification. -/
def extraKeyOf (n : ExtraNotif) : String × String := (n.user, n.computer)

/-- Elapsed hours of a session, exact rational model of
(now_ts - start_ts) / 3600.0.  The executable detector below carries the
elapsed seconds (an integer) and compares them against 3600 * threshold,
which is exactly the comparison hours >= threshold_hours of the source
under exact arithmetic; this function is the hour value itself, used in
specifications. -/
def elapsedHours (nowTs startTs : Int) : ℚ := ((nowTs - startTs : Int) : ℚ) / 3600

/-- The over_map built by check_extratime: (user, computer) keys in
first-appearance order, each with the offending features in scan order.
A session is collected only when its start parses to a truthy (nonzero)
timestamp and its elapsed hours reach the threshold; excluded and
maintenance-tagged features are skipped entirely. -/
abbrev OverMap := List ((String × String) × List (String × Int))

/-- One session of the over_map construction. -/
def extraSessionStep (cfg : Config) (now : DateTime) (feat : String)
    (om2 : OverMap) (u : UserSession) : OverMap :=
  match _parse_start_timestamp now u.start with
  | none => om2
  | some ts =>
    if ts = 0 then om2
    else
      let secs := toSeconds now - ts
      if 3600 * (cfg.extratimeThreshold : Int) ≤ secs then
        match alistGet om2 (u.user, u.computer) with
        | some l => alistSet om2 (u.user, u.computer) (l ++ [(feat, secs)])
        | none => om2 ++ [((u.user, u.computer), [(feat, secs)])]
      else om2

/-- One feature of the over_map construction. -/
def extraFeatureStep (cfg : Config) (now : DateTime) (om : OverMap)
    (p : String × FeatRec) : OverMap :=
  let lname := lowerStr p.1
  if decide (lname ∈ cfg.extratimeExclusion.map lowerStr) then om
  else if cfg.hideMaint && strContains lname "maint" then om
  else p.2.users.foldl (extraSessionStep cfg now p.1) om

def extratimeOverMap (cfg : Config) (now : DateTime) (parsed : Features) : OverMap :=
  parsed.foldl (extraFeatureStep cfg now) []

/-- What it means for an over-map item (feature, hours) under a key to be
justified by the snapshot: an eligible feature holds a session of that
user and computer whose start resolves to a truthy instant and whose
elapsed hours reach the threshold. -/
def extraQualified (cfg : Config) (now : DateTime) (parsed : Features)
    (key : String × String) (fh : String × Int) : Prop :=
  ∃ (r : FeatRec) (us : UserSession) (ts : Int),
    (fh.1, r) ∈ parsed ∧ us ∈ r.users ∧ (us.user, us.computer) = key ∧
    _parse_start_timestamp now us.start = some ts ∧ ts ≠ 0 ∧
    fh.2 = toSeconds now - ts ∧
    elapsedHours (toSeconds now) ts ≥ (cfg.extratimeThreshold : ℚ) ∧
    ¬(lowerStr fh.1 ∈ cfg.extratimeExclusion.map lowerStr) ∧
    ¬((cfg.hideMaint && strContains (lowerStr fh.1) "maint") = true)

/-- Stable insertion of a feature into a descending list, placing later
arrivals after equal keys (the stable sort of the source; sorting by
descending seconds is sorting by descending hours). -/
def insDesc (x : String × Int) : List (String × Int) → List (String × Int)
  | [] => [x]
  | y :: t => if x.2 > y.2 then x :: y :: t else y :: insDesc x t

def sortDescHours (l : List (String × Int)) : List (String × Int) :=
  l.foldl (fun acc x => insDesc x acc) []

/-- One over-map entry of the notification loop of check_extratime.
send_teams_notification (src/app.py, lines 462-543) catches every
exception and returns False on failure, so it never raises; hence the
add to the remembered set right after the send always executes,
whatever the delivery outcome.  The oracle therefore only annotates the
emitted message with its delivery result. -/
def extraNotifyStep (oracle : Nat → Bool) (acc : ExtraState × List ExtraNotif)
    (entry : (String × String) × List (String × Int)) : ExtraState × List ExtraNotif :=
  if decide (entry.1 ∈ acc.1.notified) then acc
  else
    let ok := oracle acc.1.sendIdx
    ({ notified := acc.1.notified ++ [entry.1],
       sendIdx := acc.1.sendIdx + 1 },
     acc.2 ++ [⟨entry.1.1, entry.1.2, sortDescHours entry.2, ok⟩])

/-- check_extratime: one message per over-threshold (user, computer) key
not yet remembered; the key is then remembered for the process lifetime
regardless of the delivery outcome, because the sink never raises. -/
def check_extratime (cfg : Config) (now : DateTime) (oracle : Nat → Bool)
    (parsed : Features) (st : ExtraState) : ExtraState × List ExtraNotif :=
  if !(cfg.teamsEnabled && cfg.notifyExtratime) then (st, [])
  else (extratimeOverMap cfg now parsed).foldl (extraNotifyStep oracle) (st, [])

def runExtratime (cfg : Config) (now : DateTime) (oracle : Nat → Bool)
    (snaps : List Features) (st : ExtraState) : ExtraState × List ExtraNotif :=
  snaps.foldl (fun acc s =>
    let r := check_extratime cfg now oracle s acc.1
    (r.1, acc.2 ++ r.2)) (st, [])

/-! ## check_soldout (src/app.py, lines 1674-1731) -/

structure SoldNotif where
  feature : String
  soldOut : Bool
  used : Nat
  total : Nat
deriving Repr, DecidableEq

/-- check_soldout: per eligible feature compute used >= total, store it,
and collect a change notification on the first observation only when
sold out, afterwards exactly on a flip.  State is written for every
eligible observation; sends happen after the loop and do not touch it. -/
def soldStep (cfg : Config) (acc : List (String × Bool) × List SoldNotif)
    (p : String × FeatRec) : List (String × Bool) × List SoldNotif :=
  let lname := lowerStr p.1
  if decide (lname ∈ cfg.soldoutExclusion.map lowerStr) then acc
  else if cfg.hideMaint && strContains lname "maint" then acc
  else
    match p.2.total, p.2.used with
    | some total, some used =>
      let sold := decide (used ≥ total)
      let notif : List SoldNotif :=
        match alistGet acc.1 p.1 with
        | none => if sold then [⟨p.1, sold, used, total⟩] else []
        | some prev => if prev ≠ sold then [⟨p.1, sold, used, total⟩] else []
      (alistSet acc.1 p.1 sold, acc.2 ++ notif)
    | _, _ => acc

def check_soldout (cfg : Config) (parsed : Features) (st : List (String × Bool)) :
    List (String × Bool) × List SoldNotif :=
  if !(cfg.teamsEnabled && cfg.notifySoldout) then (st, [])
  else parsed.foldl (soldStep cfg) (st, [])

def runSoldout (cfg : Config) (snaps : List Features) (st : List (String × Bool)) :
    List (String × Bool) × List SoldNotif :=
  snaps.foldl (fun acc s =>
    let r := check_soldout cfg s acc.1
    (r.1, acc.2 ++ r.2)) (st, [])

/-- The booleans of the notifications a trace carries for one feature,
in emission order. -/
def soldProj (f : String) (tr : List SoldNotif) : List Bool :=
  tr.filterMap (fun n => if n.feature = f then some n.soldOut else none)

/-! ## store_feature_stats (src/app.py, lines 652-697) -/

structure Row where
  timestamp : Int
  featureName : String
  used : Nat
  available : Nat
deriving Repr, DecidableEq

/-- Eligibility of a feature for the usage recorder and the status view:
not maintenance-tagged under HIDE_MAINT and not matching HIDE_LIST. -/
def visibleFeature (cfg : Config) (name : String) : Bool :=
  let lname := lowerStr name
  !(cfg.hideMaint && strContains lname "maint") &&
  !(cfg.hideList.any (fun h => strContains lname (lowerStr h)))

/-- store_feature_stats: append one row per visible feature with known
used/total whose (used, total) pair differs from the cached last state,
updating the cache; all rows of one call carry the same timestamp. -/
def statsStep (cfg : Config) (now : Int) (acc : List (String × Nat × Nat) × List Row)
    (p : String × FeatRec) : List (String × Nat × Nat) × List Row :=
  if !visibleFeature cfg p.1 then acc
  else
    match p.2.used, p.2.total with
    | some used, some total =>
      if alistGet acc.1 p.1 ≠ some (used, total) then
        (alistSet acc.1 p.1 (used, total), acc.2 ++ [⟨now, p.1, used, total⟩])
      else acc
    | _, _ => acc

def store_feature_stats (cfg : Config) (now : Int) (licenses_data : Features)
    (cache : List (String × Nat × Nat)) :
    List (String × Nat × Nat) × List Row :=
  licenses_data.foldl (statsStep cfg now) (cache, [])

/-- The row the recorder would append for one feature against a given
cache: present exactly when the feature is visible, both counts are
known, and the (used, total) pair differs from the cached one. -/
def rowFun (cfg : Config) (now : Int) (cache : List (String × Nat × Nat))
    (p : String × FeatRec) : Option Row :=
  if visibleFeature cfg p.1 then
    match p.2.used, p.2.total with
    | some used, some total =>
      if alistGet cache p.1 ≠ some (used, total) then some ⟨now, p.1, used, total⟩
      else none
    | _, _ => none
  else none

/-! ## The refresh cycle (refresh_loop, src/app.py lines 1789-1847, and
manual_refresh, lines 1929-1979) and the /status route (lines 1900-1926). -/

structure AppState where
  raw : String
  parsed : Features
  lastUpdate : Option Int
  lastError : Option String
  statsCache : List (String × Nat × Nat)
  dupState : List DupKey
  extraState : ExtraState
  soldState : List (String × Bool)
  daemonState : Option Bool
deriving DecidableEq

structure CycleOut where
  rows : List Row
  daemonHint : Option Bool
  daemonNotif : Option DaemonNotif
  dupNotifs : List DupNotif
  extraNotifs : List ExtraNotif
  soldNotifs : List SoldNotif
deriving DecidableEq

/-- One refresh cycle.  scheduled=true is the periodic loop, which runs
the recorder; scheduled=false is the manual refresh, which skips it (the
source comment: do NOT store stats on manual refresh).  On command
success the new snapshot is published and the last error cleared; on
command failure only the last error is written, the snapshot is left
untouched, and the daemon-state detector still runs with a false hint. -/
def runCycle (cfg : Config) (scheduled : Bool) (cmd : Except String String)
    (sr po : Option Bool) (now : DateTime) (oracle : Nat → Bool) (st : AppState) :
    AppState × CycleOut :=
  match cmd with
  | .ok out =>
    let parsed := parse_lmstat out
    let st1 :=
      { st with
        raw := out, parsed := parsed,
        lastUpdate := some (toSeconds now), lastError := none }
    let rec1 := if scheduled then store_feature_stats cfg (toSeconds now) parsed st1.statsCache
                else (st1.statsCache, [])
    let lmstatOk := _lmstat_output_indicates_ok out
    let dee := check_daemon_state cfg lmstatOk sr po st1.daemonState
    let dup := check_duplicates cfg parsed st1.dupState
    let ext := check_extratime cfg now oracle parsed st1.extraState
    let sol := check_soldout cfg parsed st1.soldState
    ({ st1 with
       statsCache := rec1.1, daemonState := dee.1, dupState := dup.1,
       extraState := ext.1, soldState := sol.1 },
     ⟨rec1.2, some lmstatOk, dee.2, dup.2, ext.2, sol.2⟩)
  | .error e =>
    let dee := check_daemon_state cfg false sr po st.daemonState
    ({ st with lastError := some e, daemonState := dee.1 },
     ⟨[], some false, dee.2, [], [], []⟩)

/-- The JSON shape of the /status route: either an error answer carrying
only the message and last-update time, or a success answer carrying the
filtered license map. -/
inductive StatusResp where
  | fail (message : String) (lastUpdate : Option Int) : StatusResp
  | good (lastUpdate : Option Int) (licenses : Features) : StatusResp
deriving DecidableEq

def statusFilter (cfg : Config) (parsed : Features) : Features :=
  parsed.filter (fun p => visibleFeature cfg p.1)

/-- The /status route: when the stored last error is truthy (a non-empty
string), answer ok=false with only the error and last-update time;
otherwise answer ok=true with the filtered snapshot. -/
def statusRoute (cfg : Config) (st : AppState) : StatusResp :=
  match st.lastError with
  | some e => if e ≠ "" then .fail e st.lastUpdate
              else .good st.lastUpdate (statusFilter cfg st.parsed)
  | none => .good st.lastUpdate (statusFilter cfg st.parsed)

/-! ## Concrete instances used in witnesses and counterexamples -/

/-- A configuration with every notification enabled, nothing hidden and
an extended-usage threshold of 1 hour. -/
def cfgEx : Config := ⟨true, true, true, true, true, false, [], [], [], 1⟩

/-- A fixed evaluation instant: 2025-11-18 09:00:00 local. -/
def nowEx : DateTime := ⟨2025, 11, 18, 9, 0, 0⟩

/-- Raw lmstat text whose feature header appears twice for the same name
with different totals. -/
def dupHeaderText : String :=
  "Users of CAD: (Total of 5 licenses issued;  Total of 2 licenses in use)\nUsers of CAD: (Total of 9 licenses issued;  Total of 7 licenses in use)"

/-- Raw lmstat text for one healthy refresh. -/
def okText : String :=
  "Users of CAD: (Total of 5 licenses issued;  Total of 2 licenses in use)"

/-- The second (repeated) feature-header line of dupHeaderText. -/
def dupLine2 : List Char :=
  "Users of CAD: (Total of 9 licenses issued;  Total of 7 licenses in use)".data

/-- A feature dict already holding CAD with (total 5, used 2). -/
def featuresEx1 : Features := [("CAD", ⟨some 5, some 2, none, []⟩)]

/-- A snapshot with a duplicate checkout: alice@host1 holds CAD twice. -/
def dupSnap : Features :=
  [("CAD", ⟨some 5, some 5, none,
    [⟨"alice", "host1", "1.0", "Fri 11/17 08:00"⟩,
     ⟨"alice", "host1", "1.0", "Fri 11/17 08:01"⟩]⟩)]

/-- A snapshot with a 25-hour-old session of alice@host1 on CAD. -/
def extraSnap : Features :=
  [("CAD", ⟨some 5, some 2, none, [⟨"alice", "host1", "1.0", "11/17/2025 08:00"⟩]⟩)]

/-- A delivery oracle whose first send attempt fails and whose later
attempts succeed. -/
def oracleFailFirst : Nat → Bool := fun n => decide (n ≠ 0)

/-- A delivery oracle that always succeeds. -/
def oracleOk : Nat → Bool := fun _ => true

/-- A small application state holding one published feature. -/
def stEx : AppState :=
  ⟨"r", [("CAD", ⟨some 5, some 2, none, []⟩)], some 5, none, [], [], ⟨[], 0⟩, [], none⟩

/-! # Lemmas

## Association-list lemmas -/

theorem alistGet_cons {κ ν : Type} [DecidableEq κ] (p : κ × ν) (l : List (κ × ν)) (k : κ) :
    alistGet (p :: l) k = if p.1 = k then some p.2 else alistGet l k := by
  by_cases h : p.1 = k <;> simp [alistGet, List.find?_cons, h]

theorem alistHas_cons {κ ν : Type} [DecidableEq κ] (p : κ × ν) (l : List (κ × ν)) (k : κ) :
    alistHas (p :: l) k = (decide (p.1 = k) || alistHas l k) := by
  simp [alistHas]

theorem alistHas_iff {κ ν : Type} [DecidableEq κ] (l : List (κ × ν)) (k : κ) :
    alistHas l k = true ↔ k ∈ l.map Prod.fst := by
  simp [alistHas, List.any_eq_true, List.mem_map]

theorem alistGet_eq_none {κ ν : Type} [DecidableEq κ] (l : List (κ × ν)) (k : κ)
    (h : alistHas l k = false) : alistGet l k = none := by
  have hfind : l.find? (fun p => decide (p.1 = k)) = none := by
    rw [List.find?_eq_none]
    intro p hp
    simp only [decide_eq_true_eq]
    intro he
    have hmem : k ∈ l.map Prod.fst := List.mem_map.2 ⟨p, hp, he⟩
    exact absurd ((alistHas_iff l k).2 hmem) (by simp [h])
  simp [alistGet, hfind]

theorem alistGet_append {κ ν : Type} [DecidableEq κ] (l₁ l₂ : List (κ × ν)) (k : κ) :
    alistGet (l₁ ++ l₂) k = (alistGet l₁ k).or (alistGet l₂ k) := by
  simp only [alistGet, List.find?_append]
  cases l₁.find? (fun p => decide (p.1 = k)) <;> simp

theorem alistGet_map_set {κ ν : Type} [DecidableEq κ] (l : List (κ × ν)) (k k' : κ) (v : ν) :
    alistGet (l.map (fun p => if p.1 = k then (k, v) else p)) k' =
      if k' = k then (if alistHas l k then some v else none) else alistGet l k' := by
  induction l with
  | nil => by_cases h : k' = k <;> simp [alistGet, alistHas, h]
  | cons p t ih =>
    by_cases hp : p.1 = k <;> by_cases hk : k' = k
    · subst hk
      simp [hp, alistGet_cons, alistHas_cons]
    · have hk2 : ¬(k = k') := fun he => hk he.symm
      simp [hp, hk, hk2, ih, alistGet_cons, alistHas_cons]
    · subst hk
      simp [hp, ih, alistGet_cons, alistHas_cons]
    · simp [hp, hk, ih, alistGet_cons, alistHas_cons]

theorem alistGet_set {κ ν : Type} [DecidableEq κ] (l : List (κ × ν)) (k k' : κ) (v : ν) :
    alistGet (alistSet l k v) k' = if k' = k then some v else alistGet l k' := by
  unfold alistSet
  by_cases h : alistHas l k
  · simp only [h, if_true, alistGet_map_set]
  · have h0 : alistHas l k = false := by simpa using h
    rw [if_neg (by simp [h0]), alistGet_append]
    by_cases hk : k' = k
    · subst hk
      simp [alistGet_eq_none l k' h0, alistGet_cons]
    · have hk2 : ¬(k = k') := fun he => hk he.symm
      simp [hk, hk2, alistGet_cons, alistGet]

theorem alistGet_setdefault {κ ν : Type} [DecidableEq κ] (l : List (κ × ν)) (k k' : κ) (v : ν) :
    alistGet (alistSetdefault l k v) k' =
      if alistHas l k then alistGet l k'
      else if k' = k then some v else alistGet l k' := by
  unfold alistSetdefault
  by_cases h : alistHas l k
  · simp [h]
  · have h0 : alistHas l k = false := by simpa using h
    rw [if_neg (by simp [h0]), if_neg (by simp [h0]), alistGet_append]
    by_cases hk : k' = k
    · subst hk
      simp [alistGet_eq_none l k' h0, alistGet_cons]
    · have hk2 : ¬(k = k') := fun he => hk he.symm
      simp [hk, hk2, alistGet_cons, alistGet]

theorem map_fst_alistSet {κ ν : Type} [DecidableEq κ] (l : List (κ × ν)) (k : κ) (v : ν) :
    (alistSet l k v).map Prod.fst =
      if alistHas l k then l.map Prod.fst else l.map Prod.fst ++ [k] := by
  unfold alistSet
  by_cases h : alistHas l k
  · simp only [h, if_true, List.map_map]
    refine List.map_congr_left ?_
    intro p _
    by_cases hp : p.1 = k <;> simp [hp]
  · simp [h]

theorem map_fst_alistSetdefault {κ ν : Type} [DecidableEq κ] (l : List (κ × ν)) (k : κ) (v : ν) :
    (alistSetdefault l k v).map Prod.fst =
      if alistHas l k then l.map Prod.fst else l.map Prod.fst ++ [k] := by
  unfold alistSetdefault
  by_cases h : alistHas l k <;> simp [h]

theorem map_fst_alistModify {κ ν : Type} [DecidableEq κ] (l : List (κ × ν)) (k : κ)
    (f : ν → ν) : (alistModify l k f).map Prod.fst = l.map Prod.fst := by
  unfold alistModify
  simp only [List.map_map]
  refine List.map_congr_left ?_
  intro p _
  by_cases hp : p.1 = k <;> simp [hp]

theorem nodup_alistSet {κ ν : Type} [DecidableEq κ] (l : List (κ × ν)) (k : κ) (v : ν)
    (h : (l.map Prod.fst).Nodup) : ((alistSet l k v).map Prod.fst).Nodup := by
  rw [map_fst_alistSet]
  by_cases hh : alistHas l k
  · simpa [hh]
  · have h0 : alistHas l k = false := by simpa using hh
    have hk : k ∉ l.map Prod.fst := fun hm => by simp [(alistHas_iff l k).2 hm] at h0
    simp [hh, List.nodup_append, h, hk]

theorem nodup_alistSetdefault {κ ν : Type} [DecidableEq κ] (l : List (κ × ν)) (k : κ) (v : ν)
    (h : (l.map Prod.fst).Nodup) : ((alistSetdefault l k v).map Prod.fst).Nodup := by
  rw [map_fst_alistSetdefault]
  by_cases hh : alistHas l k
  · simpa [hh]
  · have h0 : alistHas l k = false := by simpa using hh
    have hk : k ∉ l.map Prod.fst := fun hm => by simp [(alistHas_iff l k).2 hm] at h0
    simp [hh, List.nodup_append, h, hk]

/-! ## Parser lemmas -/

theorem parseLineUser_nodup (features : Features) (cur : Option String) (line : List Char)
    (h : (features.map Prod.fst).Nodup) :
    (((parseLineUser features cur line).1).map Prod.fst).Nodup := by
  unfold parseLineUser
  cases hu : parseUserLine line with
  | some u =>
    cases cur with
    | some c => simpa [map_fst_alistModify] using h
    | none => simpa using h
  | none => cases cur <;> simpa using h

/-- Every branch of the line loop keeps the feature keys duplicate-free:
entries are only created through setdefault. -/
theorem parseLine_nodup (features : Features) (cur : Option String) (line : List Char)
    (h : (features.map Prod.fst).Nodup) :
    (((parseLine features cur line).1).map Prod.fst).Nodup := by
  unfold parseLine
  cases hf : parseFeatureHeader line with
  | some v =>
    obtain ⟨n, t, u⟩ := v
    simpa using nodup_alistSetdefault features n _ h
  | none =>
    cases hn : parseNamedLine line with
    | some n => simpa using nodup_alistSetdefault features n _ h
    | none =>
      cases he : parseExpiryLine line with
      | some e =>
        cases cur with
        | some c => simpa [map_fst_alistModify] using h
        | none => simpa using parseLineUser_nodup features none line h
      | none =>
        cases cur with
        | some c => simpa using parseLineUser_nodup features (some c) line h
        | none => simpa using parseLineUser_nodup features none line h

/-- The keys of a parsed snapshot are duplicate-free: one entry per
feature name. -/
theorem parse_lmstat_keys_nodup (raw : String) :
    ((parse_lmstat raw).map Prod.fst).Nodup := by
  unfold parse_lmstat
  exact List.foldlRecOn (pySplitlines raw) _ (([], none) : Features × Option String)
    (by simp) (fun b hb a _ => parseLine_nodup b.1 b.2 a hb)

/-- A feature-header line for a name already present leaves the dict
unchanged (setdefault) and only resets the cursor. -/
theorem parseLine_header_present (features : Features) (cur : Option String)
    (line : List Char) (n : String) (t u : Nat)
    (hf : parseFeatureHeader line = some (n, t, u))
    (hhas : alistHas features n = true) :
    parseLine features cur line = (features, some n) := by
  unfold parseLine
  rw [hf]
  simp [alistSetdefault, hhas]

/-- A feature-header line for an unseen name appends a fresh entry
carrying that header's total and used. -/
theorem parseLine_header_absent (features : Features) (cur : Option String)
    (line : List Char) (n : String) (t u : Nat)
    (hf : parseFeatureHeader line = some (n, t, u))
    (hhas : alistHas features n = false) :
    parseLine features cur line =
      (features ++ [(n, ⟨some t, some u, none, []⟩)], some n) := by
  unfold parseLine
  rw [hf]
  simp [alistSetdefault, hhas]

/-! ## More association-list lemmas -/

theorem alistGet_none_iff {κ ν : Type} [DecidableEq κ] (l : List (κ × ν)) (k : κ) :
    alistGet l k = none ↔ alistHas l k = false := by
  constructor
  · intro h
    have hfind : l.find? (fun p => decide (p.1 = k)) = none := by
      unfold alistGet at h
      cases hf : l.find? (fun p => decide (p.1 = k)) with
      | none => rfl
      | some p => simp [hf] at h
    rw [List.find?_eq_none] at hfind
    by_contra hh
    have : alistHas l k = true := by simpa using hh
    rw [alistHas_iff] at this
    obtain ⟨p, hp, he⟩ := List.mem_map.1 this
    exact hfind p hp (by simp [he])
  · exact alistGet_eq_none l k

theorem alistGet_of_mem_of_nodup {κ ν : Type} [DecidableEq κ] (l : List (κ × ν))
    (k : κ) (v : ν) (hl : (l.map Prod.fst).Nodup) (hm : (k, v) ∈ l) :
    alistGet l k = some v := by
  induction l with
  | nil => cases hm
  | cons p t ih =>
    rcases List.mem_cons.1 hm with he | ht
    · subst he
      simp [alistGet_cons]
    · have hkt : k ∈ t.map Prod.fst := List.mem_map.2 ⟨(k, v), ht, rfl⟩
      have hl' : p.1 ∉ t.map Prod.fst ∧ (t.map Prod.fst).Nodup := by
        rw [List.map_cons, List.nodup_cons] at hl
        exact hl
      have hne : p.1 ≠ k := fun he => hl'.1 (he ▸ hkt)
      rw [alistGet_cons, if_neg hne]
      exact ih hl'.2 ht

/-! ## pairCounts lemmas -/

/-- Master lemma: folding sessions into an existing count dict adds the
number of matching sessions to the stored count. -/
theorem pairCounts_foldl (users : List UserSession) (k : String × String) :
    ∀ acc : List ((String × String) × Nat),
      alistGet (users.foldl pairCountStep acc) k =
        match alistGet acc k with
        | some n => some (n + users.countP (fun s => decide ((s.user, s.computer) = k)))
        | none =>
          if 0 < users.countP (fun s => decide ((s.user, s.computer) = k)) then
            some (users.countP (fun s => decide ((s.user, s.computer) = k)))
          else none := by
  induction users with
  | nil => intro acc; cases h : alistGet acc k <;> simp [h]
  | cons s t ih =>
    intro acc
    rw [List.foldl_cons]
    by_cases hk : (s.user, s.computer) = k
    · cases hacc : alistGet acc k with
      | some n =>
        have hstep : pairCountStep acc s = alistSet acc (s.user, s.computer) (n + 1) := by
          unfold pairCountStep
          rw [hk, hacc]
        rw [hstep, ih]
        have hget : alistGet (alistSet acc (s.user, s.computer) (n + 1)) k = some (n + 1) := by
          rw [alistGet_set, if_pos hk.symm]
        rw [hget]
        simp [List.countP_cons, hk]
        ring
      | none =>
        have hstep : pairCountStep acc s = acc ++ [((s.user, s.computer), 1)] := by
          unfold pairCountStep
          rw [hk, hacc]
        rw [hstep, ih]
        have hget : alistGet (acc ++ [((s.user, s.computer), 1)]) k = some 1 := by
          rw [alistGet_append, hacc]
          simp [alistGet_cons, hk]
        rw [hget]
        simp [List.countP_cons, hk]
        ring
    · have hcount : (s :: t).countP (fun x => decide ((x.user, x.computer) = k)) =
          t.countP (fun x => decide ((x.user, x.computer) = k)) := by
        simp [List.countP_cons, hk]
      have hget : alistGet (pairCountStep acc s) k = alistGet acc k := by
        unfold pairCountStep
        cases hacc : alistGet acc (s.user, s.computer) with
        | some n =>
          rw [alistGet_set, if_neg (fun he => hk he.symm)]
        | none =>
          rw [alistGet_append]
          cases h2 : alistGet acc k with
          | some v => rfl
          | none =>
            have hone : alistGet [((s.user, s.computer), 1)] k = none := by
              rw [alistGet_cons, if_neg hk]
              rfl
            rw [hone]
            rfl
      rw [ih (pairCountStep acc s), hget, hcount]

/-- The count stored by pairCounts for a key is exactly the number of
sessions with that (user, computer), present exactly when positive. -/
theorem pairCounts_get (users : List UserSession) (k : String × String) :
    alistGet (pairCounts users) k =
      if 0 < users.countP (fun s => decide ((s.user, s.computer) = k)) then
        some (users.countP (fun s => decide ((s.user, s.computer) = k)))
      else none := by
  unfold pairCounts
  rw [pairCounts_foldl users k []]
  rfl

theorem pairCounts_nodup (users : List UserSession) :
    ((pairCounts users).map Prod.fst).Nodup := by
  unfold pairCounts
  have hstep : ∀ (acc : List ((String × String) × Nat)), (acc.map Prod.fst).Nodup →
      ∀ s : UserSession, ((pairCountStep acc s).map Prod.fst).Nodup := by
    intro acc hacc s
    unfold pairCountStep
    cases hg : alistGet acc (s.user, s.computer) with
    | some n => exact nodup_alistSet acc _ _ hacc
    | none =>
      have hh : alistHas acc (s.user, s.computer) = false := (alistGet_none_iff _ _).1 hg
      have h2 := nodup_alistSetdefault acc (s.user, s.computer) 1 hacc
      unfold alistSetdefault at h2
      rw [if_neg (by simp [hh])] at h2
      exact h2
  exact @List.foldlRecOn _ _ (fun x => (x.map Prod.fst).Nodup) users pairCountStep []
    (by simp) (fun acc hacc s _ => hstep acc hacc s)

theorem pairCounts_mem_get (users : List UserSession) (k : String × String) (n : Nat)
    (hm : (k, n) ∈ pairCounts users) : alistGet (pairCounts users) k = some n :=
  alistGet_of_mem_of_nodup _ k n (pairCounts_nodup users) hm

/-! ## Duplicate-detector invariants (claim C3) -/

/-- One inner step preserves: counting an already-notified prefix c₀, the
key k was notified at most once in total, and if it was, it is remembered
in the state. -/
theorem dupPairStep_inv (feat : String) (k : DupKey) (c₀ : Nat)
    (acc : List DupKey × List DupNotif) (q : (String × String) × Nat)
    (h : c₀ + acc.2.countP (fun n => decide (dupKeyOf n = k)) ≤ 1 ∧
      (1 ≤ c₀ + acc.2.countP (fun n => decide (dupKeyOf n = k)) → k ∈ acc.1)) :
    c₀ + (dupPairStep feat acc q).2.countP (fun n => decide (dupKeyOf n = k)) ≤ 1 ∧
      (1 ≤ c₀ + (dupPairStep feat acc q).2.countP (fun n => decide (dupKeyOf n = k)) →
        k ∈ (dupPairStep feat acc q).1) := by
  by_cases hq : q.2 > 1
  · by_cases hmem : (feat, q.1.1, q.1.2) ∈ acc.1
    · have hred : dupPairStep feat acc q = acc := by
        unfold dupPairStep
        simp [hq, hmem]
      rw [hred]
      exact h
    · have hred : dupPairStep feat acc q =
          (acc.1 ++ [(feat, q.1.1, q.1.2)], acc.2 ++ [⟨feat, q.1.1, q.1.2, q.2⟩]) := by
        unfold dupPairStep
        simp [hq, hmem]
      rw [hred]
      by_cases hk : (feat, q.1.1, q.1.2) = k
      · have hc0 : c₀ + acc.2.countP (fun n => decide (dupKeyOf n = k)) = 0 := by
          by_contra hc
          exact hmem (hk ▸ h.2 (Nat.one_le_iff_ne_zero.2 fun h0 => hc (by simp [h0])))
        constructor
        · rw [List.countP_append, ← Nat.add_assoc, hc0]
          simp [dupKeyOf, hk]
        · intro _
          exact List.mem_append_right _ (by simp [hk])
      · constructor
        · simpa [List.countP_append, dupKeyOf, hk] using h.1
        · intro h1
          have h2 : 1 ≤ c₀ + acc.2.countP (fun n => decide (dupKeyOf n = k)) := by
            simpa [List.countP_append, dupKeyOf, hk] using h1
          exact List.mem_append_left _ (h.2 h2)
  · have hred : dupPairStep feat acc q = acc := by
      unfold dupPairStep
      simp [hq]
    rw [hred]
    exact h

/-- The per-feature step preserves the same invariant. -/
theorem dupFeatureStep_inv (cfg : Config) (k : DupKey) (c₀ : Nat)
    (acc : List DupKey × List DupNotif) (p : String × FeatRec)
    (h : c₀ + acc.2.countP (fun n => decide (dupKeyOf n = k)) ≤ 1 ∧
      (1 ≤ c₀ + acc.2.countP (fun n => decide (dupKeyOf n = k)) → k ∈ acc.1)) :
    c₀ + (dupFeatureStep cfg acc p).2.countP (fun n => decide (dupKeyOf n = k)) ≤ 1 ∧
      (1 ≤ c₀ + (dupFeatureStep cfg acc p).2.countP (fun n => decide (dupKeyOf n = k)) →
        k ∈ (dupFeatureStep cfg acc p).1) := by
  unfold dupFeatureStep
  by_cases h1 : cfg.hideMaint && strContains (lowerStr p.1) "maint"
  · simpa [h1] using h
  · by_cases h2 : p.2.users.length < 2
    · simpa [h1, h2] using h
    · simp only [h1, h2, if_false]
      exact @List.foldlRecOn _ _
        (fun acc2 => c₀ + acc2.2.countP (fun n => decide (dupKeyOf n = k)) ≤ 1 ∧
          (1 ≤ c₀ + acc2.2.countP (fun n => decide (dupKeyOf n = k)) → k ∈ acc2.1))
        (pairCounts p.2.users) (dupPairStep p.1) acc h
        (fun b hb q _ => dupPairStep_inv p.1 k c₀ b q hb)

/-- One detector call adds at most one notification for k to a trace that
already mentions k c₀ times, and remembers k whenever the total reaches
one. -/
theorem check_duplicates_inv (cfg : Config) (parsed : Features) (st : List DupKey)
    (k : DupKey) (c₀ : Nat)
    (h : c₀ ≤ 1 ∧ (1 ≤ c₀ → k ∈ st)) :
    c₀ + (check_duplicates cfg parsed st).2.countP (fun n => decide (dupKeyOf n = k)) ≤ 1 ∧
      (1 ≤ c₀ + (check_duplicates cfg parsed st).2.countP (fun n => decide (dupKeyOf n = k)) →
        k ∈ (check_duplicates cfg parsed st).1) := by
  unfold check_duplicates
  by_cases hg : !(cfg.teamsEnabled && cfg.notifyDuplicate)
  · simpa [hg] using h
  · simp only [hg, if_false]
    exact @List.foldlRecOn _ _
      (fun acc => c₀ + acc.2.countP (fun n => decide (dupKeyOf n = k)) ≤ 1 ∧
        (1 ≤ c₀ + acc.2.countP (fun n => decide (dupKeyOf n = k)) → k ∈ acc.1))
      parsed (dupFeatureStep cfg) (st, []) (by simpa using h)
      (fun b hb p _ => dupFeatureStep_inv cfg k c₀ b p hb)

/-- Across a whole run, each key is notified at most once, and a notified
key is remembered. -/
theorem runDuplicates_inv (cfg : Config) (snaps : List Features) (st : List DupKey)
    (k : DupKey) :
    (runDuplicates cfg snaps st).2.countP (fun n => decide (dupKeyOf n = k)) ≤ 1 ∧
      (1 ≤ (runDuplicates cfg snaps st).2.countP (fun n => decide (dupKeyOf n = k)) →
        k ∈ (runDuplicates cfg snaps st).1) := by
  unfold runDuplicates
  refine @List.foldlRecOn _ _
    (fun acc => acc.2.countP (fun n => decide (dupKeyOf n = k)) ≤ 1 ∧
      (1 ≤ acc.2.countP (fun n => decide (dupKeyOf n = k)) → k ∈ acc.1))
    snaps _ (st, []) (by simp) ?_
  intro b hb s _
  have h2 := check_duplicates_inv cfg s b.1 k
    (b.2.countP (fun n => decide (dupKeyOf n = k))) hb
  constructor
  · simpa [List.countP_append] using h2.1
  · intro h1
    exact h2.2 (by simpa [List.countP_append] using h1)

/-- Every notification emitted by one detector call reports a pair that
really occurs more than once in that feature's session list. -/
theorem check_duplicates_sound (cfg : Config) (parsed : Features) (st : List DupKey) :
    ∀ n ∈ (check_duplicates cfg parsed st).2, 1 < n.count ∧
      ∃ r, (n.feature, r) ∈ parsed ∧
        n.count = r.users.countP
          (fun s => decide ((s.user, s.computer) = (n.user, n.computer))) := by
  unfold check_duplicates
  by_cases hg : !(cfg.teamsEnabled && cfg.notifyDuplicate)
  · simp [hg]
  · simp only [hg, if_false]
    refine @List.foldlRecOn _ _
      (fun acc => ∀ n ∈ acc.2, 1 < n.count ∧
        ∃ r, (n.feature, r) ∈ parsed ∧
          n.count = r.users.countP
            (fun s => decide ((s.user, s.computer) = (n.user, n.computer))))
      parsed (dupFeatureStep cfg) (st, []) (by simp) ?_
    intro b hb p hp
    unfold dupFeatureStep
    by_cases h1 : cfg.hideMaint && strContains (lowerStr p.1) "maint"
    · simpa [h1] using hb
    · by_cases h2 : p.2.users.length < 2
      · simpa [h1, h2] using hb
      · simp only [h1, h2, if_false]
        refine @List.foldlRecOn _ _
          (fun acc2 => ∀ n ∈ acc2.2, 1 < n.count ∧
            ∃ r, (n.feature, r) ∈ parsed ∧
              n.count = r.users.countP
                (fun s => decide ((s.user, s.computer) = (n.user, n.computer))))
          (pairCounts p.2.users) (dupPairStep p.1) b hb ?_
        intro b2 hb2 q hq
        by_cases hqc : q.2 > 1
        · by_cases hmem : (p.1, q.1.1, q.1.2) ∈ b2.1
          · have hred : dupPairStep p.1 b2 q = b2 := by
              unfold dupPairStep
              simp [hqc, hmem]
            rw [hred]
            exact hb2
          · have hred : dupPairStep p.1 b2 q =
                (b2.1 ++ [(p.1, q.1.1, q.1.2)], b2.2 ++ [⟨p.1, q.1.1, q.1.2, q.2⟩]) := by
              unfold dupPairStep
              simp [hqc, hmem]
            rw [hred]
            intro n hn
            rcases List.mem_append.1 hn with hold | hnew
            · exact hb2 n hold
            · have hn2 : n = (⟨p.1, q.1.1, q.1.2, q.2⟩ : DupNotif) := by simpa using hnew
              subst hn2
              refine ⟨hqc, p.2, hp, ?_⟩
              have hq2 : q = ((q.1.1, q.1.2), q.2) := by
                cases q with
                | mk a b => cases a with | mk u c => rfl
              have hget := pairCounts_mem_get p.2.users (q.1.1, q.1.2) q.2 (hq2 ▸ hq)
              rw [pairCounts_get] at hget
              by_cases hpos :
                  0 < p.2.users.countP
                    (fun s => decide ((s.user, s.computer) = (q.1.1, q.1.2)))
              · rw [if_pos hpos] at hget
                exact (Option.some_injective _ hget).symm
              · rw [if_neg hpos] at hget
                cases hget
        · have hred : dupPairStep p.1 b2 q = b2 := by
            unfold dupPairStep
            simp [hqc]
          rw [hred]
          exact hb2

/-! ## Sold-out detector lemmas (claim C4) -/

/-- A skipped or foreign feature entry leaves both the stored boolean of
f and the notification booleans of f untouched. -/
theorem soldStep_other (cfg : Config) (f : String)
    (acc : List (String × Bool) × List SoldNotif) (p : String × FeatRec)
    (hne : p.1 ≠ f) :
    alistGet (soldStep cfg acc p).1 f = alistGet acc.1 f ∧
      soldProj f (soldStep cfg acc p).2 = soldProj f acc.2 := by
  unfold soldStep
  by_cases h1 : lowerStr p.1 ∈ cfg.soldoutExclusion.map lowerStr
  · simp [h1]
  · by_cases h2 : (cfg.hideMaint && strContains (lowerStr p.1) "maint") = true
    · simp [h1, h2]
    · cases ht : p.2.total with
      | none => simp [h1, h2, ht]
      | some t =>
        cases hu : p.2.used with
        | none => simp [h1, h2, ht, hu]
        | some u =>
          have hfa : f ≠ p.1 := fun he => hne he.symm
          constructor
          · simp [h1, h2, ht, hu, alistGet_set, hfa]
          · cases hg : alistGet acc.1 p.1 with
            | none =>
              by_cases hs : decide (u ≥ t) = true <;>
                simp [h1, h2, ht, hu, hg, hs, soldProj, List.filterMap_append, hne]
            | some prev =>
              by_cases hs : prev ≠ decide (u ≥ t) <;>
                simp [h1, h2, ht, hu, hg, hs, soldProj, List.filterMap_append, hne]

/-- The step at an eligible feature: store used >= total, emit on first
observation only when sold out, and later exactly on a flip. -/
theorem soldStep_elig (cfg : Config) (acc : List (String × Bool) × List SoldNotif)
    (f : String) (r : FeatRec) (t u : Nat)
    (h1 : ¬(lowerStr f ∈ cfg.soldoutExclusion.map lowerStr))
    (h2 : ¬((cfg.hideMaint && strContains (lowerStr f) "maint") = true))
    (ht : r.total = some t) (hu : r.used = some u) :
    soldStep cfg acc (f, r) =
      (alistSet acc.1 f (decide (u ≥ t)),
       acc.2 ++ (match alistGet acc.1 f with
         | none => if decide (u ≥ t) then [⟨f, decide (u ≥ t), u, t⟩] else []
         | some prev =>
           if prev ≠ decide (u ≥ t) then [⟨f, decide (u ≥ t), u, t⟩] else [])) := by
  unfold soldStep
  simp [h1, h2, ht, hu]

/-- Folding features none of which is named f changes neither the stored
boolean of f nor the notifications of f. -/
theorem soldFold_other (cfg : Config) (f : String) (l : Features)
    (hf : f ∉ l.map Prod.fst) (acc : List (String × Bool) × List SoldNotif) :
    alistGet (l.foldl (soldStep cfg) acc).1 f = alistGet acc.1 f ∧
      soldProj f (l.foldl (soldStep cfg) acc).2 = soldProj f acc.2 := by
  refine @List.foldlRecOn _ _
    (fun acc2 => alistGet acc2.1 f = alistGet acc.1 f ∧
      soldProj f acc2.2 = soldProj f acc.2) l (soldStep cfg) acc ⟨rfl, rfl⟩ ?_
  intro b hb p hp
  have hne : p.1 ≠ f := fun he => hf (he ▸ List.mem_map.2 ⟨p, hp, rfl⟩)
  have hstep := soldStep_other cfg f b p hne
  exact ⟨hstep.1.trans hb.1, hstep.2.trans hb.2⟩

/-- The per-feature behavior of check_soldout at an eligible feature of a
duplicate-free snapshot: the detector stores used >= total and notifies
exactly on the first-sold-out or flip condition. -/
theorem check_soldout_at (cfg : Config) (parsed : Features)
    (st : List (String × Bool)) (f : String) (r : FeatRec) (t u : Nat)
    (hnodup : (parsed.map Prod.fst).Nodup) (hmem : (f, r) ∈ parsed)
    (hgate : (cfg.teamsEnabled && cfg.notifySoldout) = true)
    (h1 : ¬(lowerStr f ∈ cfg.soldoutExclusion.map lowerStr))
    (h2 : ¬((cfg.hideMaint && strContains (lowerStr f) "maint") = true))
    (ht : r.total = some t) (hu : r.used = some u) :
    alistGet (check_soldout cfg parsed st).1 f = some (decide (u ≥ t)) ∧
    soldProj f (check_soldout cfg parsed st).2 =
      (match alistGet st f with
       | none => if decide (u ≥ t) then [decide (u ≥ t)] else []
       | some prev => if prev ≠ decide (u ≥ t) then [decide (u ≥ t)] else []) := by
  obtain ⟨l₁, l₂, hsplit⟩ := List.append_of_mem hmem
  have hkeys : ((l₁.map Prod.fst) ++ f :: (l₂.map Prod.fst)).Nodup := by
    rw [hsplit] at hnodup
    simpa using hnodup
  have hf1 : f ∉ l₁.map Prod.fst := by
    rcases List.nodup_append.1 hkeys with ⟨-, -, hdisj⟩
    exact fun hm => hdisj hm (by simp)
  have hf2 : f ∉ l₂.map Prod.fst := by
    rcases List.nodup_append.1 hkeys with ⟨-, hcons, -⟩
    exact (List.nodup_cons.1 hcons).1
  unfold check_soldout
  rw [if_neg (by simp [hgate])]
  rw [hsplit, List.foldl_append, List.foldl_cons]
  have hstage1 := soldFold_other cfg f l₁ hf1 (st, [])
  have hstep := soldStep_elig cfg (l₁.foldl (soldStep cfg) (st, [])) f r t u h1 h2 ht hu
  have hstage2 := soldFold_other cfg f l₂ hf2
    (soldStep cfg (l₁.foldl (soldStep cfg) (st, [])) (f, r))
  rw [hstep] at hstage2
  refine ⟨?_, ?_⟩
  · rw [hstep, hstage2.1]
    simp [alistGet_set]
  · rw [hstep, hstage2.2]
    rw [soldProj, List.filterMap_append, ← soldProj, ← soldProj, hstage1.2, hstage1.1]
    cases hg : alistGet st f with
    | none =>
      by_cases hs : decide (u ≥ t) = true <;> simp [hs, soldProj]
    | some prev =>
      by_cases hs : prev ≠ decide (u ≥ t) <;> simp [hs, soldProj]

/-- One sold-out step preserves the alternation invariant: the booleans
notified for f so far alternate, and the stored boolean of f equals the
last notified one (when any). -/
theorem soldStep_chain (cfg : Config) (f : String) (tr : List SoldNotif)
    (acc : List (String × Bool) × List SoldNotif) (p : String × FeatRec)
    (h : (soldProj f (tr ++ acc.2)).Chain' (· ≠ ·) ∧
      (∀ b, (soldProj f (tr ++ acc.2)).getLast? = some b → alistGet acc.1 f = some b)) :
    (soldProj f (tr ++ (soldStep cfg acc p).2)).Chain' (· ≠ ·) ∧
      (∀ b, (soldProj f (tr ++ (soldStep cfg acc p).2)).getLast? = some b →
        alistGet (soldStep cfg acc p).1 f = some b) := by
  by_cases hpf : p.1 = f
  · by_cases h1 : lowerStr p.1 ∈ cfg.soldoutExclusion.map lowerStr
    · have hred : soldStep cfg acc p = acc := by
        unfold soldStep
        simp [h1]
      rw [hred]
      exact h
    · by_cases h2 : (cfg.hideMaint && strContains (lowerStr p.1) "maint") = true
      · have hred : soldStep cfg acc p = acc := by
          unfold soldStep
          simp [h1, h2]
        rw [hred]
        exact h
      · cases ht : p.2.total with
        | none =>
          have hred : soldStep cfg acc p = acc := by
            unfold soldStep
            simp [h1, h2, ht]
          rw [hred]
          exact h
        | some t =>
          cases hu : p.2.used with
          | none =>
            have hred : soldStep cfg acc p = acc := by
              unfold soldStep
              simp [h1, h2, ht, hu]
            rw [hred]
            exact h
          | some u =>
            have hp2 : p = (f, p.2) := by
              rw [← hpf]
            rw [hp2] at h1 h2 ⊢
            have hstep := soldStep_elig cfg acc f p.2 t u (by simpa [hpf] using h1)
              (by simpa [hpf] using h2) ht hu
            have hproj : ∀ x : List SoldNotif,
                soldProj f (tr ++ (acc.2 ++ x)) =
                  soldProj f (tr ++ acc.2) ++ soldProj f x := by
              intro x
              simp [soldProj, List.filterMap_append]
            have hgetset : alistGet (alistSet acc.1 f (decide (u ≥ t))) f =
                some (decide (u ≥ t)) := by
              rw [alistGet_set, if_pos rfl]
            have hone : soldProj f [(⟨f, decide (u ≥ t), u, t⟩ : SoldNotif)] =
                [decide (u ≥ t)] := by
              simp [soldProj]
            cases hg : alistGet acc.1 f with
            | none =>
              rw [hg] at hstep
              dsimp only at hstep
              have hempty : soldProj f (tr ++ acc.2) = [] := by
                cases hl : (soldProj f (tr ++ acc.2)).getLast? with
                | none => exact List.getLast?_eq_none_iff.1 hl
                | some b =>
                  have hx := h.2 b hl
                  rw [hg] at hx
                  cases hx
              by_cases hs : decide (u ≥ t) = true
              · rw [hstep, if_pos hs]
                dsimp only
                constructor
                · rw [hproj, hempty, hone, List.nil_append]
                  exact List.chain'_singleton _
                · intro b hb
                  rw [hproj, hempty, hone, List.nil_append] at hb
                  have hlast : ([decide (u ≥ t)] : List Bool).getLast? =
                      some (decide (u ≥ t)) := rfl
                  rw [hlast] at hb
                  injection hb with hb2
                  rw [hgetset, hb2]
              · rw [hstep, if_neg hs]
                dsimp only
                constructor
                · rw [List.append_nil]
                  exact h.1
                · intro b hb
                  rw [List.append_nil, hempty] at hb
                  cases hb
            | some prev =>
              rw [hg] at hstep
              dsimp only at hstep
              by_cases hs : prev ≠ decide (u ≥ t)
              · rw [hstep, if_pos hs]
                dsimp only
                constructor
                · rw [hproj, hone, List.chain'_append]
                  refine ⟨h.1, List.chain'_singleton _, ?_⟩
                  intro x hx y hy
                  have hxl : (soldProj f (tr ++ acc.2)).getLast? = some x := by
                    simpa using hx
                  have hx2 := h.2 x hxl
                  rw [hg] at hx2
                  injection hx2 with h3
                  have hy2 : y = decide (u ≥ t) :=
                    (by simpa using hy : decide (u ≥ t) = y).symm
                  rw [← h3, hy2]
                  exact hs
                · intro b hb
                  rw [hproj, hone, List.getLast?_concat] at hb
                  injection hb with hb2
                  rw [hgetset, hb2]
              · rw [hstep, if_neg hs]
                dsimp only
                constructor
                · rw [List.append_nil]
                  exact h.1
                · intro b hb
                  rw [List.append_nil] at hb
                  have hx := h.2 b hb
                  rw [hg] at hx
                  injection hx with h3
                  have hps : prev = decide (u ≥ t) := not_ne_iff.1 hs
                  rw [hgetset, ← hps, h3]
  · have hstep := soldStep_other cfg f acc p hpf
    have hproj : soldProj f (tr ++ (soldStep cfg acc p).2) = soldProj f (tr ++ acc.2) := by
      have h2 := hstep.2
      rw [soldProj, soldProj, List.filterMap_append, List.filterMap_append]
      rw [soldProj, soldProj] at h2
      rw [h2]
    exact ⟨by rw [hproj]; exact h.1,
      fun b hb => by rw [hstep.1]; exact h.2 b (by rwa [hproj] at hb)⟩

/-- One detector call preserves the alternation invariant. -/
theorem check_soldout_chain (cfg : Config) (f : String) (tr : List SoldNotif)
    (parsed : Features) (st : List (String × Bool))
    (h : (soldProj f tr).Chain' (· ≠ ·) ∧
      (∀ b, (soldProj f tr).getLast? = some b → alistGet st f = some b)) :
    (soldProj f (tr ++ (check_soldout cfg parsed st).2)).Chain' (· ≠ ·) ∧
      (∀ b, (soldProj f (tr ++ (check_soldout cfg parsed st).2)).getLast? = some b →
        alistGet (check_soldout cfg parsed st).1 f = some b) := by
  unfold check_soldout
  by_cases hg : !(cfg.teamsEnabled && cfg.notifySoldout)
  · simpa [hg, soldProj, List.filterMap_append] using h
  · simp only [hg, if_false]
    refine @List.foldlRecOn _ _
      (fun acc => (soldProj f (tr ++ acc.2)).Chain' (· ≠ ·) ∧
        (∀ b, (soldProj f (tr ++ acc.2)).getLast? = some b → alistGet acc.1 f = some b))
      parsed (soldStep cfg) (st, []) (by simpa using h) ?_
    intro b hb p _
    exact soldStep_chain cfg f tr b p hb

/-- Across a whole run from any starting state, the booleans notified for
one feature alternate: never two consecutive notifications with the same
value. -/
theorem runSoldout_chain (cfg : Config) (snaps : List Features)
    (st : List (String × Bool)) (f : String) :
    (soldProj f (runSoldout cfg snaps st).2).Chain' (· ≠ ·) := by
  unfold runSoldout
  refine (@List.foldlRecOn (List (String × Bool) × List SoldNotif) Features
    (fun acc => (soldProj f acc.2).Chain' (· ≠ ·) ∧
      (∀ b, (soldProj f acc.2).getLast? = some b → alistGet acc.1 f = some b))
    snaps
    (fun acc s =>
      let r := check_soldout cfg s acc.1
      (r.1, acc.2 ++ r.2))
    (st, []) (by simp [soldProj]) ?_).1
  intro b hb s _
  exact check_soldout_chain cfg f b.2 s b.1 hb

/-! ## Recorder lemmas (claim C6) -/

/-- A step at a feature not named f leaves the cached pair of f alone. -/
theorem statsStep_other_get (cfg : Config) (now : Int) (f : String)
    (acc : List (String × Nat × Nat) × List Row) (p : String × FeatRec)
    (hne : p.1 ≠ f) :
    alistGet (statsStep cfg now acc p).1 f = alistGet acc.1 f := by
  unfold statsStep
  by_cases hv : visibleFeature cfg p.1
  · cases hu : p.2.used with
    | none => simp [hv, hu]
    | some u =>
      cases ht : p.2.total with
      | none => simp [hv, hu, ht]
      | some t =>
        have hfa : f ≠ p.1 := fun he => hne he.symm
        by_cases hc : alistGet acc.1 p.1 = some (u, t)
        · simp [hv, hu, ht, hc]
        · simp [hv, hu, ht, hc, alistGet_set, hfa]
  · simp [hv]

/-- Folding features none of which is named f leaves the cached pair of f
alone. -/
theorem statsFold_other_get (cfg : Config) (now : Int) (f : String) (l : Features)
    (hf : f ∉ l.map Prod.fst) (acc : List (String × Nat × Nat) × List Row) :
    alistGet (l.foldl (statsStep cfg now) acc).1 f = alistGet acc.1 f := by
  refine @List.foldlRecOn _ _
    (fun acc2 => alistGet acc2.1 f = alistGet acc.1 f) l (statsStep cfg now) acc rfl ?_
  intro b hb p hp
  have hne : p.1 ≠ f := fun he => hf (he ▸ List.mem_map.2 ⟨p, hp, rfl⟩)
  exact (statsStep_other_get cfg now f b p hne).trans hb

/-- On a duplicate-free snapshot the appended rows are, in order, exactly
the rows rowFun picks against the cache the call started from. -/
theorem stats_rows_eq (cfg : Config) (now : Int) (parsed : Features) :
    (parsed.map Prod.fst).Nodup →
    ∀ (cache : List (String × Nat × Nat)) (rows : List Row),
      (parsed.foldl (statsStep cfg now) (cache, rows)).2 =
        rows ++ parsed.filterMap (rowFun cfg now cache) := by
  induction parsed with
  | nil => intro _ cache rows; simp
  | cons p t ih =>
    intro hnodup cache rows
    have hnd : p.1 ∉ t.map Prod.fst ∧ (t.map Prod.fst).Nodup := by
      rw [List.map_cons, List.nodup_cons] at hnodup
      exact hnodup
    have hpt : p.1 ∉ t.map Prod.fst := hnd.1
    have hcongr : ∀ cache2 : List (String × Nat × Nat),
        (∀ g, g ≠ p.1 → alistGet cache2 g = alistGet cache g) →
        t.filterMap (rowFun cfg now cache2) = t.filterMap (rowFun cfg now cache) := by
      intro cache2 hsame
      refine List.filterMap_congr ?_
      intro q hq
      have hqne : q.1 ≠ p.1 := by
        intro he
        exact hpt (he ▸ List.mem_map.2 ⟨q, hq, rfl⟩)
      unfold rowFun
      rw [hsame q.1 hqne]
    rw [List.foldl_cons, List.filterMap_cons]
    by_cases hv : visibleFeature cfg p.1
    · cases hu : p.2.used with
      | none =>
        have hstep : statsStep cfg now (cache, rows) p = (cache, rows) := by
          unfold statsStep
          simp [hv, hu]
        have hrow : rowFun cfg now cache p = none := by
          unfold rowFun
          simp [hv, hu]
        rw [hstep, hrow, ih hnd.2 cache rows]
      | some u =>
        cases ht : p.2.total with
        | none =>
          have hstep : statsStep cfg now (cache, rows) p = (cache, rows) := by
            unfold statsStep
            simp [hv, hu, ht]
          have hrow : rowFun cfg now cache p = none := by
            unfold rowFun
            simp [hv, hu, ht]
          rw [hstep, hrow, ih hnd.2 cache rows]
        | some tt =>
          by_cases hc : alistGet cache p.1 ≠ some (u, tt)
          · have hstep : statsStep cfg now (cache, rows) p =
                (alistSet cache p.1 (u, tt), rows ++ [⟨now, p.1, u, tt⟩]) := by
              unfold statsStep
              simp [hv, hu, ht, hc]
            have hrow : rowFun cfg now cache p = some ⟨now, p.1, u, tt⟩ := by
              unfold rowFun
              simp [hv, hu, ht, hc]
            rw [hstep, hrow, ih hnd.2 (alistSet cache p.1 (u, tt))
              (rows ++ [(⟨now, p.1, u, tt⟩ : Row)])]
            rw [hcongr (alistSet cache p.1 (u, tt))
              (fun g hg => by rw [alistGet_set, if_neg hg])]
            simp
          · have hstep : statsStep cfg now (cache, rows) p = (cache, rows) := by
              unfold statsStep
              simp [hv, hu, ht, hc]
            have hrow : rowFun cfg now cache p = none := by
              unfold rowFun
              simp [hv, hu, ht, hc]
            rw [hstep, hrow, ih hnd.2 cache rows]
    · have hstep : statsStep cfg now (cache, rows) p = (cache, rows) := by
        unfold statsStep
        simp [hv]
      have hrow : rowFun cfg now cache p = none := by
        unfold rowFun
        simp [hv]
      rw [hstep, hrow, ih hnd.2 cache rows]

/-- After one recorder pass, the cache holds the current pair of every
visible feature with known counts. -/
theorem stats_cache_current (cfg : Config) (now : Int) (parsed : Features)
    (cache : List (String × Nat × Nat)) (f : String) (r : FeatRec) (u t : Nat)
    (hnodup : (parsed.map Prod.fst).Nodup) (hmem : (f, r) ∈ parsed)
    (hv : visibleFeature cfg f = true) (hu : r.used = some u) (ht : r.total = some t) :
    alistGet (store_feature_stats cfg now parsed cache).1 f = some (u, t) := by
  obtain ⟨l₁, l₂, hsplit⟩ := List.append_of_mem hmem
  have hkeys : ((l₁.map Prod.fst) ++ f :: (l₂.map Prod.fst)).Nodup := by
    rw [hsplit] at hnodup
    simpa using hnodup
  have hf1 : f ∉ l₁.map Prod.fst := by
    rcases List.nodup_append.1 hkeys with ⟨-, -, hdisj⟩
    exact fun hm => hdisj hm (by simp)
  have hf2 : f ∉ l₂.map Prod.fst := by
    rcases List.nodup_append.1 hkeys with ⟨-, hcons, -⟩
    exact (List.nodup_cons.1 hcons).1
  unfold store_feature_stats
  rw [hsplit, List.foldl_append, List.foldl_cons]
  rw [statsFold_other_get cfg now f l₂ hf2]
  set acc1 := l₁.foldl (statsStep cfg now) (cache, [])
  have hstage1 : alistGet acc1.1 f = alistGet cache f :=
    statsFold_other_get cfg now f l₁ hf1 (cache, [])
  unfold statsStep
  by_cases hc : alistGet acc1.1 f = some (u, t)
  · simp [hv, hu, ht, hc]
  · simp only [hv, hu, ht]
    rw [if_neg (by simp), if_pos hc]
    simp [alistGet_set]

/-- Feeding the same snapshot to the recorder twice in a row produces
rows only the first time. -/
theorem stats_idempotent (cfg : Config) (now₁ now₂ : Int) (parsed : Features)
    (cache : List (String × Nat × Nat))
    (hnodup : (parsed.map Prod.fst).Nodup) :
    (store_feature_stats cfg now₂ parsed
      (store_feature_stats cfg now₁ parsed cache).1).2 = [] := by
  have h1 : (store_feature_stats cfg now₂ parsed
      (store_feature_stats cfg now₁ parsed cache).1).2 =
      parsed.filterMap (rowFun cfg now₂ (store_feature_stats cfg now₁ parsed cache).1) := by
    have := stats_rows_eq cfg now₂ parsed hnodup
      (store_feature_stats cfg now₁ parsed cache).1 []
    simpa [store_feature_stats] using this
  rw [h1]
  rw [List.filterMap_eq_nil_iff]
  intro p hp
  unfold rowFun
  by_cases hv : visibleFeature cfg p.1
  · cases hu : p.2.used with
    | none => simp [hv, hu]
    | some u =>
      cases ht : p.2.total with
      | none => simp [hv, hu, ht]
      | some t =>
        have hcur := stats_cache_current cfg now₁ parsed cache p.1 p.2 u t hnodup
          (by simpa using hp) hv hu ht
        simp [hv, hu, ht, hcur]
  · simp [hv]

/-! ## Extended-usage detector lemmas (claims C9) -/

theorem alistGet_mem_of_eq_some {κ ν : Type} [DecidableEq κ] (l : List (κ × ν))
    (k : κ) (v : ν) (h : alistGet l k = some v) : (k, v) ∈ l := by
  unfold alistGet at h
  cases hf : l.find? (fun p => decide (p.1 = k)) with
  | none => rw [hf] at h; cases h
  | some p =>
    rw [hf] at h
    have hp1 : p.1 = k := by simpa using List.find?_some hf
    have hp2 : p.2 = v := by simpa using h
    have hmem := List.mem_of_find?_eq_some hf
    have : p = (k, v) := by
      cases p
      simp only at hp1 hp2
      rw [hp1, hp2]
    rwa [this] at hmem

/-- A single session step preserves over-map soundness. -/
theorem extraSessionStep_sound (cfg : Config) (now : DateTime) (parsed : Features)
    (feat : String) (r0 : FeatRec) (hfeat : (feat, r0) ∈ parsed)
    (h1 : ¬(lowerStr feat ∈ cfg.extratimeExclusion.map lowerStr))
    (h2 : ¬((cfg.hideMaint && strContains (lowerStr feat) "maint") = true))
    (om2 : OverMap)
    (hom2 : ∀ entry ∈ om2, ∀ fh ∈ entry.2, extraQualified cfg now parsed entry.1 fh)
    (us : UserSession) (hus : us ∈ r0.users) :
    ∀ entry ∈ extraSessionStep cfg now feat om2 us, ∀ fh ∈ entry.2,
      extraQualified cfg now parsed entry.1 fh := by
  unfold extraSessionStep
  cases hts : _parse_start_timestamp now us.start with
  | none => exact hom2
  | some ts =>
    dsimp only
    by_cases hz : ts = 0
    · simpa [hz] using hom2
    · rw [if_neg hz]
      by_cases hh : 3600 * (cfg.extratimeThreshold : Int) ≤ toSeconds now - ts
      · rw [if_pos hh]
        have hhq : elapsedHours (toSeconds now) ts ≥ (cfg.extratimeThreshold : ℚ) := by
          unfold elapsedHours
          rw [ge_iff_le, le_div_iff₀ (by norm_num : (0 : ℚ) < 3600)]
          calc ((cfg.extratimeThreshold : ℚ)) * 3600
              = ((3600 * (cfg.extratimeThreshold : Int) : Int) : ℚ) := by
                push_cast
                ring
            _ ≤ ((toSeconds now - ts : Int) : ℚ) := by
                exact_mod_cast hh
        have hnew : extraQualified cfg now parsed (us.user, us.computer)
            (feat, toSeconds now - ts) :=
          ⟨r0, us, ts, hfeat, hus, rfl, hts, hz, rfl, hhq, h1, h2⟩
        cases hg : alistGet om2 (us.user, us.computer) with
        | some l =>
          dsimp only
          have hhas : alistHas om2 (us.user, us.computer) = true := by
            by_contra hx
            have hf : alistHas om2 (us.user, us.computer) = false := by simpa using hx
            rw [alistGet_eq_none om2 (us.user, us.computer) hf] at hg
            cases hg
          have hset : alistSet om2 (us.user, us.computer)
              (l ++ [(feat, toSeconds now - ts)]) =
              om2.map (fun p => if p.1 = (us.user, us.computer) then
                ((us.user, us.computer), l ++ [(feat, toSeconds now - ts)])
              else p) := by
            unfold alistSet
            rw [if_pos hhas]
          rw [hset]
          intro entry hentry fh hfh
          rcases List.mem_map.1 hentry with ⟨q, hq, hqe⟩
          by_cases hqk : q.1 = (us.user, us.computer)
          · have hent : entry = ((us.user, us.computer),
                l ++ [(feat, toSeconds now - ts)]) := by
              rw [← hqe]
              simp [hqk]
            rw [hent] at hfh ⊢
            rcases List.mem_append.1 hfh with hfl | hfx
            · have hkl : ((us.user, us.computer), l) ∈ om2 :=
                alistGet_mem_of_eq_some om2 (us.user, us.computer) l hg
              exact hom2 ((us.user, us.computer), l) hkl fh hfl
            · have hfh2 : fh = (feat, toSeconds now - ts) := by
                simpa using hfx
              subst hfh2
              exact hnew
          · have hent : entry = q := by
              rw [← hqe]
              simp [hqk]
            rw [hent] at hfh ⊢
            exact hom2 q hq fh hfh
        | none =>
          dsimp only
          intro entry hentry fh hfh
          rcases List.mem_append.1 hentry with hold | hnewe
          · exact hom2 entry hold fh hfh
          · have he : entry = ((us.user, us.computer),
                [(feat, toSeconds now - ts)]) := by simpa using hnewe
            subst he
            have hfh2 : fh = (feat, toSeconds now - ts) := by simpa using hfh
            subst hfh2
            exact hnew
      · rw [if_neg hh]
        exact hom2

/-- A feature step preserves over-map soundness. -/
theorem extraFeatureStep_sound (cfg : Config) (now : DateTime) (parsed : Features)
    (om : OverMap)
    (hom : ∀ entry ∈ om, ∀ fh ∈ entry.2, extraQualified cfg now parsed entry.1 fh)
    (p : String × FeatRec) (hp : p ∈ parsed) :
    ∀ entry ∈ extraFeatureStep cfg now om p, ∀ fh ∈ entry.2,
      extraQualified cfg now parsed entry.1 fh := by
  unfold extraFeatureStep
  by_cases h1 : lowerStr p.1 ∈ cfg.extratimeExclusion.map lowerStr
  · simpa [h1] using hom
  · by_cases h2 : (cfg.hideMaint && strContains (lowerStr p.1) "maint") = true
    · simpa [h1, h2] using hom
    · rw [if_neg (by simpa using h1), if_neg h2]
      have hfeat : (p.1, p.2) ∈ parsed := by
        rw [Prod.mk.eta]
        exact hp
      refine @List.foldlRecOn _ _
        (fun om2 => ∀ entry ∈ om2, ∀ fh ∈ entry.2,
          extraQualified cfg now parsed entry.1 fh)
        p.2.users (extraSessionStep cfg now p.1) om hom ?_
      intro b hb us hus
      exact extraSessionStep_sound cfg now parsed p.1 p.2 hfeat h1 h2 b hb us hus

/-- Every over-map item is justified by a qualifying session of the
snapshot. -/
theorem overMap_sound (cfg : Config) (now : DateTime) (parsed : Features) :
    ∀ entry ∈ extratimeOverMap cfg now parsed, ∀ fh ∈ entry.2,
      extraQualified cfg now parsed entry.1 fh := by
  unfold extratimeOverMap
  refine @List.foldlRecOn _ _
    (fun om => ∀ entry ∈ om, ∀ fh ∈ entry.2, extraQualified cfg now parsed entry.1 fh)
    parsed (extraFeatureStep cfg now) [] (by simp) ?_
  intro om hom p hp
  exact extraFeatureStep_sound cfg now parsed om hom p hp

/-- Every emitted extended-usage notification is built from an over-map
entry: same key, features sorted by the stable descending-hours sort. -/
theorem check_extratime_mem (cfg : Config) (now : DateTime) (oracle : Nat → Bool)
    (parsed : Features) (st : ExtraState) :
    ∀ n ∈ (check_extratime cfg now oracle parsed st).2,
      ∃ entry ∈ extratimeOverMap cfg now parsed,
        n.user = entry.1.1 ∧ n.computer = entry.1.2 ∧
        n.feats = sortDescHours entry.2 := by
  unfold check_extratime
  by_cases hg : !(cfg.teamsEnabled && cfg.notifyExtratime)
  · simp [hg]
  · simp only [hg, if_false]
    refine @List.foldlRecOn _ _
      (fun acc => ∀ n ∈ acc.2, ∃ entry ∈ extratimeOverMap cfg now parsed,
        n.user = entry.1.1 ∧ n.computer = entry.1.2 ∧
        n.feats = sortDescHours entry.2)
      (extratimeOverMap cfg now parsed) (extraNotifyStep oracle) (st, []) (by simp) ?_
    intro b hb entry hentry
    unfold extraNotifyStep
    by_cases hm : entry.1 ∈ b.1.notified
    · simpa [hm] using hb
    · rw [if_neg (by simpa using hm)]
      intro n hn
      dsimp only at hn
      rcases List.mem_append.1 hn with hold | hnew
      · exact hb n hold
      · have hn2 : n = (⟨entry.1.1, entry.1.2, sortDescHours entry.2,
            oracle b.1.sendIdx⟩ : ExtraNotif) := by
          simpa using hnew
        subst hn2
        exact ⟨entry, hentry, rfl, rfl, rfl⟩

/-! ## Stable descending sort lemmas -/

theorem insDesc_head (x : String × Int) (l : List (String × Int)) :
    (insDesc x l).head? = some x ∨ (insDesc x l).head? = l.head? := by
  cases l with
  | nil => left; rfl
  | cons y t =>
    unfold insDesc
    by_cases hxy : x.2 > y.2
    · left
      simp [hxy]
    · right
      simp [hxy]

theorem insDesc_sorted (x : String × Int) (l : List (String × Int))
    (h : l.Chain' (fun a b => a.2 ≥ b.2)) :
    (insDesc x l).Chain' (fun a b => a.2 ≥ b.2) := by
  induction l with
  | nil => exact List.chain'_singleton x
  | cons y t ih =>
    unfold insDesc
    by_cases hxy : x.2 > y.2
    · rw [if_pos hxy]
      exact List.chain'_cons.2 ⟨le_of_lt hxy, h⟩
    · rw [if_neg hxy]
      have ht : t.Chain' (fun a b => a.2 ≥ b.2) := h.tail
      have hins := ih ht
      refine List.chain'_cons'.2 ⟨?_, hins⟩
      intro z hz
      rcases insDesc_head x t with h1 | h1
      · rw [h1] at hz
        have hzx : z = x := (by simpa using hz : x = z).symm
        subst hzx
        exact le_of_not_lt hxy
      · rw [h1] at hz
        exact (List.chain'_cons'.1 h).1 z hz

theorem sortDescHours_sorted (l : List (String × Int)) :
    (sortDescHours l).Chain' (fun a b => a.2 ≥ b.2) := by
  unfold sortDescHours
  refine @List.foldlRecOn _ _ (fun acc => acc.Chain' (fun a b => a.2 ≥ b.2)) l
    (fun acc x => insDesc x acc) [] (by simp) ?_
  intro b hb x _
  exact insDesc_sorted x b hb

/-- A list descending in elapsed seconds is descending in elapsed hours
(division by the positive constant 3600 preserves the order). -/
theorem chain_hours_of_chain_secs (l : List (String × Int))
    (h : l.Chain' (fun a b => a.2 ≥ b.2)) :
    (l.map (fun fh => ((fh.2 : ℚ) / 3600))).Chain' (fun a b => a ≥ b) := by
  rw [List.chain'_map]
  refine h.imp ?_
  intro a b hab
  have hq : (b.2 : ℚ) ≤ (a.2 : ℚ) := by exact_mod_cast hab
  exact div_le_div_of_nonneg_right hq (by norm_num)

/-! ## Extended-usage dedup invariants -/

/-- One notification step preserves: counting a prefix of c₀ emitted
notifications of key k, at most one notification for k has ever been
emitted, and when one has, k is in the remembered set (the key is
remembered after every send attempt, whatever the oracle says). -/
theorem extraNotifyStep_inv (k : String × String) (c₀ : Nat) (oracle : Nat → Bool)
    (acc : ExtraState × List ExtraNotif)
    (entry : (String × String) × List (String × Int))
    (h : c₀ + acc.2.countP (fun n => decide (extraKeyOf n = k)) ≤ 1 ∧
      (1 ≤ c₀ + acc.2.countP (fun n => decide (extraKeyOf n = k)) →
        k ∈ acc.1.notified)) :
    c₀ + (extraNotifyStep oracle acc entry).2.countP
        (fun n => decide (extraKeyOf n = k)) ≤ 1 ∧
      (1 ≤ c₀ + (extraNotifyStep oracle acc entry).2.countP
        (fun n => decide (extraKeyOf n = k)) →
        k ∈ (extraNotifyStep oracle acc entry).1.notified) := by
  by_cases hm : entry.1 ∈ acc.1.notified
  · have hred : extraNotifyStep oracle acc entry = acc := by
      unfold extraNotifyStep
      simp [hm]
    rw [hred]
    exact h
  · have hred : extraNotifyStep oracle acc entry =
        ({ notified := acc.1.notified ++ [entry.1],
           sendIdx := acc.1.sendIdx + 1 },
         acc.2 ++ [⟨entry.1.1, entry.1.2, sortDescHours entry.2,
           oracle acc.1.sendIdx⟩]) := by
      unfold extraNotifyStep
      simp [hm]
    rw [hred]
    have hkey : extraKeyOf (⟨entry.1.1, entry.1.2, sortDescHours entry.2,
        oracle acc.1.sendIdx⟩ : ExtraNotif) = entry.1 := by
      unfold extraKeyOf
      exact Prod.mk.eta
    by_cases hk : entry.1 = k
    · have hc0 : c₀ + acc.2.countP (fun n => decide (extraKeyOf n = k)) = 0 := by
        by_contra hc
        exact hm (hk ▸ h.2 (Nat.one_le_iff_ne_zero.2 hc))
      constructor
      · rw [List.countP_append, ← Nat.add_assoc, hc0]
        have hle : ∀ (p : ExtraNotif → Bool) (x : ExtraNotif),
            List.countP p [x] ≤ 1 := by
          intro p x
          simp only [List.countP_cons, List.countP_nil]
          split <;> simp
        simpa using hle _ _
      · intro _
        exact List.mem_append_right _ (by simp [hk])
    · constructor
      · simpa [List.countP_append, List.countP_cons, hkey, hk] using h.1
      · intro h1
        have h2 : 1 ≤ c₀ + acc.2.countP (fun n => decide (extraKeyOf n = k)) := by
          simpa [List.countP_append, List.countP_cons, hkey, hk] using h1
        exact List.mem_append_left _ (h.2 h2)

/-- One detector call adds at most one notification for k. -/
theorem check_extratime_inv (cfg : Config) (now : DateTime) (oracle : Nat → Bool)
    (parsed : Features) (st : ExtraState) (k : String × String) (c₀ : Nat)
    (h : c₀ ≤ 1 ∧ (1 ≤ c₀ → k ∈ st.notified)) :
    c₀ + (check_extratime cfg now oracle parsed st).2.countP
        (fun n => decide (extraKeyOf n = k)) ≤ 1 ∧
      (1 ≤ c₀ + (check_extratime cfg now oracle parsed st).2.countP
        (fun n => decide (extraKeyOf n = k)) →
        k ∈ (check_extratime cfg now oracle parsed st).1.notified) := by
  unfold check_extratime
  by_cases hg : !(cfg.teamsEnabled && cfg.notifyExtratime)
  · simpa [hg] using h
  · simp only [hg, if_false]
    exact @List.foldlRecOn _ _
      (fun acc => c₀ + acc.2.countP
          (fun n => decide (extraKeyOf n = k)) ≤ 1 ∧
        (1 ≤ c₀ + acc.2.countP
          (fun n => decide (extraKeyOf n = k)) →
          k ∈ acc.1.notified))
      (extratimeOverMap cfg now parsed) (extraNotifyStep oracle) (st, [])
      (by simpa using h)
      (fun b hb entry _ => extraNotifyStep_inv k c₀ oracle b entry hb)

/-- Across a whole run from a fresh detector state, each key receives at
most one notification, whatever the delivery outcomes are. -/
theorem runExtratime_inv (cfg : Config) (now : DateTime) (oracle : Nat → Bool)
    (snaps : List Features) (st : ExtraState) (k : String × String) :
    (runExtratime cfg now oracle snaps st).2.countP
      (fun n => decide (extraKeyOf n = k)) ≤ 1 := by
  unfold runExtratime
  refine (@List.foldlRecOn _ _
    (fun acc : ExtraState × List ExtraNotif =>
      acc.2.countP (fun n => decide (extraKeyOf n = k)) ≤ 1 ∧
      (1 ≤ acc.2.countP (fun n => decide (extraKeyOf n = k)) →
        k ∈ acc.1.notified))
    snaps
    (fun acc s =>
      let r := check_extratime cfg now oracle s acc.1
      (r.1, acc.2 ++ r.2))
    (st, []) (by simp) ?_).1
  intro b hb s _
  have h2 := check_extratime_inv cfg now oracle s b.1 k
    (b.2.countP (fun n => decide (extraKeyOf n = k))) hb
  constructor
  · simpa [List.countP_append] using h2.1
  · intro h1
    exact h2.2 (by simpa [List.countP_append] using h1)

/-! # Claim theorems -/

/-- C1: for every combination of lmstatOk, serviceRunning and portOpen,
the up/down boolean computed by check_daemon_state equals the spec's
ordered decision table (rules 1-3 first-match down, then the lmstatOk /
truthy-or fallback). -/
theorem claim_C1 : ∀ (lmstatOk : Bool) (serviceRunning portOpen : Option Bool),
    daemonCurrent lmstatOk serviceRunning portOpen =
      specDaemonTable lmstatOk serviceRunning portOpen := by decide

/-- C2 (counterexample): in dupHeaderText the same feature header appears
twice for CAD, first with (total 5, used 2), later with (total 9, used 7);
the parser keeps one entry whose total and used are those of the FIRST
header, not the later one, because the source uses dict.setdefault. -/
theorem claim_C2_counterexample :
    ((pySplitlines dupHeaderText).map parseFeatureHeader =
      [some ("CAD", 5, 2), some ("CAD", 9, 7)]) ∧
    parse_lmstat dupHeaderText = [("CAD", ⟨some 5, some 2, none, []⟩)] ∧
    (((5 : Nat), (2 : Nat)) ≠ ((9 : Nat), (7 : Nat))) :=
  ⟨by decide, by decide, by decide⟩

/-- C2 (amended): a raw text whose feature header appears more than once
for the same name yields exactly one entry for that name (the parsed keys
are duplicate-free), and a repeated header leaves the stored entry
unchanged, only resetting the current-feature cursor; the stored total
and used are the ones of the header that created the entry. -/
theorem claim_C2_amended :
    (∀ raw : String, ((parse_lmstat raw).map Prod.fst).Nodup) ∧
    (∀ (features : Features) (cur : Option String) (line : List Char)
       (n : String) (t u : Nat),
       parseFeatureHeader line = some (n, t, u) →
       (alistHas features n = true → parseLine features cur line = (features, some n)) ∧
       (alistHas features n = false →
         parseLine features cur line =
           (features ++ [(n, ⟨some t, some u, none, []⟩)], some n))) :=
  ⟨parse_lmstat_keys_nodup,
   fun features cur line n t u hf =>
     ⟨fun hhas => parseLine_header_present features cur line n t u hf hhas,
      fun hhas => parseLine_header_absent features cur line n t u hf hhas⟩⟩

/-- C2 (witness): the amended theorem applied to the concrete second
header of dupHeaderText over a dict already holding CAD with (5, 2). -/
theorem claim_C2_witness :
    parseFeatureHeader dupLine2 = some ("CAD", 9, 7) ∧
    alistHas featuresEx1 "CAD" = true ∧
    parseLine featuresEx1 (some "CAD") dupLine2 = (featuresEx1, some "CAD") :=
  ⟨by decide, by decide,
   (claim_C2_amended.2 featuresEx1 (some "CAD") dupLine2 "CAD" 9 7 (by decide)).1
     (by decide)⟩

/-- C3: over any sequence of snapshots within one process lifetime, each
(feature, user, computer) key is notified at most once, whatever the
delivery oracle does (the remembered set and the notification list are
computed before any send); and every emitted notification reports a pair
that occurs more than once in that feature's session list. -/
theorem claim_C3 :
    (∀ (cfg : Config) (snaps : List Features) (k : DupKey),
      (runDuplicates cfg snaps []).2.countP (fun n => decide (dupKeyOf n = k)) ≤ 1) ∧
    (∀ (cfg : Config) (parsed : Features) (st : List DupKey) (o₁ o₂ : Nat → Bool),
      (check_duplicates_sent cfg parsed st o₁).1 =
        (check_duplicates_sent cfg parsed st o₂).1) ∧
    (∀ (cfg : Config) (parsed : Features) (st : List DupKey) (n : DupNotif),
      n ∈ (check_duplicates cfg parsed st).2 → 1 < n.count ∧
        ∃ r, (n.feature, r) ∈ parsed ∧
          n.count = r.users.countP
            (fun s => decide ((s.user, s.computer) = (n.user, n.computer)))) :=
  ⟨fun cfg snaps k => (runDuplicates_inv cfg snaps [] k).1,
   fun _ _ _ _ _ => rfl,
   fun cfg parsed st n hn => check_duplicates_sound cfg parsed st n hn⟩

/-- C3 (witness): the soundness conjunct applied to the concrete
notification the detector emits on dupSnap. -/
theorem claim_C3_witness :
    (⟨"CAD", "alice", "host1", 2⟩ : DupNotif) ∈ (check_duplicates cfgEx dupSnap []).2 ∧
    (1 < 2 ∧ ∃ r, ("CAD", r) ∈ dupSnap ∧
      (2 : Nat) = r.users.countP
        (fun s => decide ((s.user, s.computer) = ("alice", "host1")))) :=
  ⟨by decide, claim_C3.2.2 cfgEx dupSnap [] ⟨"CAD", "alice", "host1", 2⟩ (by decide)⟩

/-- C4: for an eligible feature of a duplicate-free snapshot the detector
stores soldOut = used >= total and its notifications for that feature in
one call are exactly: the value on first observation when sold out, a
flip of the stored boolean later, nothing otherwise; and across any run
the booleans notified for a feature alternate, so no two consecutive
notifications for the same feature carry the same value. -/
theorem claim_C4 :
    (∀ (cfg : Config) (parsed : Features) (st : List (String × Bool)) (f : String)
       (r : FeatRec) (t u : Nat),
       (parsed.map Prod.fst).Nodup → (f, r) ∈ parsed →
       (cfg.teamsEnabled && cfg.notifySoldout) = true →
       ¬(lowerStr f ∈ cfg.soldoutExclusion.map lowerStr) →
       ¬((cfg.hideMaint && strContains (lowerStr f) "maint") = true) →
       r.total = some t → r.used = some u →
       alistGet (check_soldout cfg parsed st).1 f = some (decide (u ≥ t)) ∧
       soldProj f (check_soldout cfg parsed st).2 =
         (match alistGet st f with
          | none => if decide (u ≥ t) then [decide (u ≥ t)] else []
          | some prev => if prev ≠ decide (u ≥ t) then [decide (u ≥ t)] else [])) ∧
    (∀ (cfg : Config) (snaps : List Features) (st : List (String × Bool)) (f : String),
      (soldProj f (runSoldout cfg snaps st).2).Chain' (· ≠ ·)) :=
  ⟨fun cfg parsed st f r t u h1 h2 h3 h4 h5 h6 h7 =>
     check_soldout_at cfg parsed st f r t u h1 h2 h3 h4 h5 h6 h7,
   runSoldout_chain⟩

/-- C4 (witness): the per-feature conjunct applied to the concrete
sold-out feature CAD of dupSnap from an empty detector state. -/
theorem claim_C4_witness :
    alistGet (check_soldout cfgEx dupSnap []).1 "CAD" = some (decide ((5 : Nat) ≥ 5)) ∧
    soldProj "CAD" (check_soldout cfgEx dupSnap []).2 =
      (match alistGet ([] : List (String × Bool)) "CAD" with
       | none => if decide ((5 : Nat) ≥ 5) then [decide ((5 : Nat) ≥ 5)] else []
       | some prev =>
         if prev ≠ decide ((5 : Nat) ≥ 5) then [decide ((5 : Nat) ≥ 5)] else []) :=
  claim_C4.1 cfgEx dupSnap []
    "CAD" ⟨some 5, some 5, none,
      [⟨"alice", "host1", "1.0", "Fri 11/17 08:00"⟩,
       ⟨"alice", "host1", "1.0", "Fri 11/17 08:01"⟩]⟩ 5 5
    (by decide) (by decide) (by decide) (by decide) (by decide) (by decide) (by decide)

/-- C5: when daemon notifications are enabled, the state machine stores
the computed boolean and notifies as follows: on the first observation
(stored state Unknown) nothing when Up and exactly one down notification
when Down; on a later observation exactly when the computed boolean
differs from the stored one, and never when they agree. -/
theorem claim_C5 (cfg : Config) (hint : Bool) (sr po : Option Bool)
    (henabled : cfg.teamsEnabled = true ∧ cfg.notifyDaemon = true) :
    (daemonCurrent hint sr po = true →
      check_daemon_state cfg hint sr po none = (some true, none)) ∧
    (daemonCurrent hint sr po = false →
      check_daemon_state cfg hint sr po none = (some false, some DaemonNotif.down)) ∧
    (∀ prev : Bool,
      check_daemon_state cfg hint sr po (some prev) =
        (some (daemonCurrent hint sr po),
         if prev ≠ daemonCurrent hint sr po then
           some (if daemonCurrent hint sr po then DaemonNotif.up else DaemonNotif.down)
         else none)) := by
  obtain ⟨h1, h2⟩ := henabled
  unfold check_daemon_state
  refine ⟨fun hc => ?_, fun hc => ?_, fun prev => ?_⟩
  · simp [h1, h2, hc]
  · simp [h1, h2, hc]
  · simp [h1, h2]

/-- C5 (witness): the claim at a concrete enabled configuration, with
both probes up on the first observation. -/
theorem claim_C5_witness :
    (cfgEx.teamsEnabled = true ∧ cfgEx.notifyDaemon = true) ∧
    (daemonCurrent true (some true) (some true) = true →
      check_daemon_state cfgEx true (some true) (some true) none = (some true, none)) :=
  ⟨by decide, (claim_C5 cfgEx true (some true) (some true) (by decide)).1⟩

/-- C6: on a duplicate-free snapshot the recorder appends, in order,
exactly one row per visible feature with known counts whose (used, total)
pair differs from the cached last state (rowFun); feeding the same
snapshot twice in a row appends rows only the first time; a manual cycle
appends no row and leaves the cache untouched while still running all
four detectors; a scheduled cycle's rows are exactly the recorder's. -/
theorem claim_C6 :
    (∀ (cfg : Config) (now : Int) (parsed : Features)
       (cache : List (String × Nat × Nat)),
      (parsed.map Prod.fst).Nodup →
      (store_feature_stats cfg now parsed cache).2 =
        parsed.filterMap (rowFun cfg now cache)) ∧
    (∀ (cfg : Config) (now₁ now₂ : Int) (parsed : Features)
       (cache : List (String × Nat × Nat)),
      (parsed.map Prod.fst).Nodup →
      (store_feature_stats cfg now₂ parsed
        (store_feature_stats cfg now₁ parsed cache).1).2 = []) ∧
    (∀ (cfg : Config) (out : String) (sr po : Option Bool) (now : DateTime)
       (oracle : Nat → Bool) (st : AppState),
      (runCycle cfg false (.ok out) sr po now oracle st).2.rows = [] ∧
      (runCycle cfg false (.ok out) sr po now oracle st).1.statsCache = st.statsCache ∧
      (runCycle cfg false (.ok out) sr po now oracle st).2.dupNotifs =
        (check_duplicates cfg (parse_lmstat out) st.dupState).2 ∧
      (runCycle cfg false (.ok out) sr po now oracle st).2.extraNotifs =
        (check_extratime cfg now oracle (parse_lmstat out) st.extraState).2 ∧
      (runCycle cfg false (.ok out) sr po now oracle st).2.soldNotifs =
        (check_soldout cfg (parse_lmstat out) st.soldState).2 ∧
      (runCycle cfg false (.ok out) sr po now oracle st).2.daemonHint =
        some (_lmstat_output_indicates_ok out)) ∧
    (∀ (cfg : Config) (out : String) (sr po : Option Bool) (now : DateTime)
       (oracle : Nat → Bool) (st : AppState),
      (runCycle cfg true (.ok out) sr po now oracle st).2.rows =
        (store_feature_stats cfg (toSeconds now) (parse_lmstat out) st.statsCache).2) := by
  refine ⟨?_, ?_, ?_, ?_⟩
  · intro cfg now parsed cache h
    unfold store_feature_stats
    simpa using stats_rows_eq cfg now parsed h cache []
  · intro cfg now₁ now₂ parsed cache h
    exact stats_idempotent cfg now₁ now₂ parsed cache h
  · intro cfg out sr po now oracle st
    exact ⟨rfl, rfl, rfl, rfl, rfl, rfl⟩
  · intro cfg out sr po now oracle st
    rfl

/-- C6 (witness): the row characterization applied to a concrete snapshot
and an empty cache. -/
theorem claim_C6_witness :
    ((featuresEx1.map Prod.fst).Nodup) ∧
    (store_feature_stats cfgEx 0 featuresEx1 []).2 =
      featuresEx1.filterMap (rowFun cfgEx 0 []) :=
  ⟨by decide, claim_C6.1 cfgEx 0 featuresEx1 [] (by decide)⟩

/-- C9: every over-map item comes from a session whose start resolves to
a truthy instant with elapsed hours at or above the threshold on a
non-excluded, non-maintenance feature; every emitted notification is an
over-map entry's (user, computer) key with that user's offending features
sorted by descending elapsed time (both in seconds and in hours); and at
most one notification is ever emitted per key over a whole run from a
fresh detector state, regardless of the delivery outcomes, because the
key is remembered after every send attempt (the sink never raises). -/
theorem claim_C9 :
    (∀ (cfg : Config) (now : DateTime) (parsed : Features),
      ∀ entry ∈ extratimeOverMap cfg now parsed, ∀ fh ∈ entry.2,
        extraQualified cfg now parsed entry.1 fh) ∧
    (∀ (cfg : Config) (now : DateTime) (oracle : Nat → Bool) (parsed : Features)
       (st : ExtraState), ∀ n ∈ (check_extratime cfg now oracle parsed st).2,
        (∃ entry ∈ extratimeOverMap cfg now parsed,
          n.user = entry.1.1 ∧ n.computer = entry.1.2 ∧
          n.feats = sortDescHours entry.2) ∧
        n.feats.Chain' (fun a b => a.2 ≥ b.2) ∧
        (n.feats.map (fun fh => ((fh.2 : ℚ) / 3600))).Chain' (fun a b => a ≥ b)) ∧
    (∀ (cfg : Config) (now : DateTime) (oracle : Nat → Bool) (snaps : List Features)
       (k : String × String),
      (runExtratime cfg now oracle snaps ⟨[], 0⟩).2.countP
        (fun n => decide (extraKeyOf n = k)) ≤ 1) := by
  refine ⟨overMap_sound, ?_,
    fun cfg now oracle snaps k => runExtratime_inv cfg now oracle snaps ⟨[], 0⟩ k⟩
  intro cfg now oracle parsed st n hn
  obtain ⟨entry, hentry, hu, hc, hf⟩ := check_extratime_mem cfg now oracle parsed st n hn
  have hsec : n.feats.Chain' (fun a b => a.2 ≥ b.2) := hf ▸ sortDescHours_sorted entry.2
  exact ⟨⟨entry, hentry, hu, hc, hf⟩, hsec, chain_hours_of_chain_secs n.feats hsec⟩

/-- C9 (witness): the emitted-notification conjunct applied to the
concrete notification of extraSnap under a reliable sink. -/
theorem claim_C9_witness :
    (⟨"alice", "host1", [("CAD", 90000)], true⟩ : ExtraNotif) ∈
      (check_extratime cfgEx nowEx oracleOk extraSnap ⟨[], 0⟩).2 ∧
    ((∃ entry ∈ extratimeOverMap cfgEx nowEx extraSnap,
        ("alice" : String) = entry.1.1 ∧ ("host1" : String) = entry.1.2 ∧
        ([(("CAD" : String), (90000 : Int))]) = sortDescHours entry.2) ∧
      ([(("CAD" : String), (90000 : Int))]).Chain' (fun a b => a.2 ≥ b.2) ∧
      (([(("CAD" : String), (90000 : Int))]).map
        (fun fh => ((fh.2 : ℚ) / 3600))).Chain' (fun a b => a ≥ b)) :=
  ⟨by decide,
   claim_C9.2.1 cfgEx nowEx oracleOk extraSnap ⟨[], 0⟩
     ⟨"alice", "host1", [("CAD", 90000)], true⟩ (by decide)⟩

/-- C10: while the stored last error is a non-empty string, the /status
route answers ok=false carrying only the error and last-update time and
no license data; a failing cycle leaves the published snapshot and raw
output untouched while writing the error; a successful cycle clears the
error, after which the route again serves the (filtered) snapshot. -/
theorem claim_C10 :
    (∀ (cfg : Config) (st : AppState) (e : String),
      st.lastError = some e → e ≠ "" →
      statusRoute cfg st = .fail e st.lastUpdate) ∧
    (∀ (cfg : Config) (scheduled : Bool) (e : String) (sr po : Option Bool)
       (now : DateTime) (oracle : Nat → Bool) (st : AppState),
      (runCycle cfg scheduled (.error e) sr po now oracle st).1.parsed = st.parsed ∧
      (runCycle cfg scheduled (.error e) sr po now oracle st).1.raw = st.raw ∧
      (runCycle cfg scheduled (.error e) sr po now oracle st).1.lastError = some e) ∧
    (∀ (cfg : Config) (scheduled : Bool) (out : String) (sr po : Option Bool)
       (now : DateTime) (oracle : Nat → Bool) (st : AppState),
      (runCycle cfg scheduled (.ok out) sr po now oracle st).1.lastError = none ∧
      statusRoute cfg (runCycle cfg scheduled (.ok out) sr po now oracle st).1 =
        .good (some (toSeconds now)) (statusFilter cfg (parse_lmstat out))) := by
  refine ⟨?_, ?_, ?_⟩
  · intro cfg st e h1 h2
    unfold statusRoute
    rw [h1]
    simp [h2]
  · intro cfg scheduled e sr po now oracle st
    exact ⟨rfl, rfl, rfl⟩
  · intro cfg scheduled out sr po now oracle st
    exact ⟨rfl, rfl⟩

/-- C10 (witness): the error-shape conjunct applied to a concrete state
holding the non-empty error boom. -/
theorem claim_C10_witness :
    ({ stEx with lastError := some "boom" } : AppState).lastError = some "boom" ∧
    ("boom" : String) ≠ "" ∧
    statusRoute cfgEx { stEx with lastError := some "boom" } =
      .fail "boom" ({ stEx with lastError := some "boom" } : AppState).lastUpdate :=
  ⟨rfl, by decide,
   claim_C10.1 cfgEx { stEx with lastError := some "boom" } "boom" rfl (by decide)⟩

/-- C7: timestamp heuristics.  With now fixed at 2025-11-18 09:00, the
year-less weekday format resolves 11/17 to the current year (2025);
an impossible date-time resolves to unparseable None rather than an
error; a year-less instant more than 2 days in the future (12/25, and
the boundary case 11/20 09:01) is moved to the prior year, while the
exact boundary 11/20 09:00 keeps the current year; fully year-specified
formats are parsed as given, before any heuristic. -/
theorem claim_C7 :
    _parse_start_timestamp nowEx "Fri 11/17 12:34" =
      some (toSeconds ⟨2025, 11, 17, 12, 34, 0⟩) ∧
    _parse_start_timestamp nowEx "13/40 99:99" = none ∧
    _parse_start_timestamp nowEx "Fri 12/25 10:00" =
      some (toSeconds ⟨2024, 12, 25, 10, 0, 0⟩) ∧
    _parse_start_timestamp nowEx "Thu 11/20 09:00" =
      some (toSeconds ⟨2025, 11, 20, 9, 0, 0⟩) ∧
    _parse_start_timestamp nowEx "Thu 11/20 09:01" =
      some (toSeconds ⟨2024, 11, 20, 9, 1, 0⟩) ∧
    _parse_start_timestamp nowEx "11/17/2023 05:00" =
      some (toSeconds ⟨2023, 11, 17, 5, 0, 0⟩) :=
  ⟨by decide, by decide, by decide, by decide, by decide, by decide⟩

/-- C8: a cycle whose status command fails publishes the failure message
as the last error while the parsed snapshot, the raw output and the
last-update time stay untouched, and still runs the daemon-state
detector with a false lmstatOk hint. -/
theorem claim_C8 (cfg : Config) (scheduled : Bool) (e : String) (sr po : Option Bool)
    (now : DateTime) (oracle : Nat → Bool) (st : AppState) :
    (runCycle cfg scheduled (.error e) sr po now oracle st).1.parsed = st.parsed ∧
    (runCycle cfg scheduled (.error e) sr po now oracle st).1.raw = st.raw ∧
    (runCycle cfg scheduled (.error e) sr po now oracle st).1.lastUpdate = st.lastUpdate ∧
    (runCycle cfg scheduled (.error e) sr po now oracle st).1.lastError = some e ∧
    (runCycle cfg scheduled (.error e) sr po now oracle st).2.daemonHint = some false ∧
    (runCycle cfg scheduled (.error e) sr po now oracle st).1.daemonState =
      (check_daemon_state cfg false sr po st.daemonState).1 ∧
    (runCycle cfg scheduled (.error e) sr po now oracle st).2.daemonNotif =
      (check_daemon_state cfg false sr po st.daemonState).2 ∧
    (runCycle cfg scheduled (.error e) sr po now oracle st).2.rows = [] := by
  unfold runCycle
  simp

end LWUI
